import Mathlib

/-!
# qtractorObserver.cpp: the subject/observer notification queue

A shallow embedding of `src/qtractorObserver.cpp`:

* `qtractorSubjectQueue` (the file-local class and its singleton
  `g_subjectQueue`): the constructor, `clear`, `push`, `pop`, `flush`, `reset`,
  `resize`, `isEmpty`;
* `qtractorSubject`: the constructor, the destructor, `setValue`, `notify`,
  `flushQueue`, `resetQueue`, `clearQueue`.

Pointers to subjects and observers are natural-number identifiers; the
subjects of the program form a heap `SubjectId → qtractorSubject`.  The
virtual call `pObserver->update(bUpdate)` leaves this translation unit: it is
recorded in a chronological trace of calls and has no other effect (the
callbacks are taken not to touch the queue or the subjects).  The calls of
`qtractorSubject::notify` are recorded in the same trace.

The queue cursor and capacity are `unsigned int` in the source.  Every
increment is guarded by `m_iQueueIndex < m_iQueueSize` and every decrement by
`m_iQueueIndex > 0`, so no operation wraps and the two fields are natural
numbers here.  Reading a slot that lies outside the backing array, or that
was never written, is undefined behaviour in the source and `none` here.
-/

namespace Qtractor

/-! ## Values -/

/-- A `float` as the code uses it.  Values are stored, copied and compared,
never computed with, so no rounding is modelled: a value is a number or NaN,
the one value on which every comparison is false.  The two zeros, which `==`
does not tell apart, are one number; the infinities are left out. -/
inductive FloatVal where
  | nan : FloatVal
  | num (q : ℚ) : FloatVal
deriving DecidableEq

namespace FloatVal

/-- The C++ comparison `a == b` on floats. -/
def feq : FloatVal → FloatVal → Bool
  | num a, num b => decide (a = b)
  | _, _ => false

/-- The C++ comparison `a > b` on floats. -/
def fgt : FloatVal → FloatVal → Bool
  | num a, num b => decide (b < a)
  | _, _ => false

/-- The C++ comparison `a < b` on floats. -/
def flt : FloatVal → FloatVal → Bool
  | num a, num b => decide (a < b)
  | _, _ => false

end FloatVal

/-! ## Data model -/

/-- A `qtractorSubject *`. -/
abbrev SubjectId := Nat

/-- A `qtractorObserver *`; the null pointer is `none : Option ObserverId`. -/
abbrev ObserverId := Nat

/-- The record `qtractorSubjectQueue::QueueItem`. -/
structure QueueItem where
  subject : SubjectId
  sender : Option ObserverId
  value : FloatVal
deriving DecidableEq

/-- The data members of `qtractorSubject`, as its constructor lists them. -/
structure qtractorSubject where
  m_fValue : FloatVal
  m_bQueued : Bool
  m_fPrevValue : FloatVal
  m_fLastValue : FloatVal
  m_fMinValue : FloatVal
  m_fMaxValue : FloatVal
  m_fDefaultValue : FloatVal
  m_bToggled : Bool
  m_bInteger : Bool
  m_pCurve : Option (FloatVal → FloatVal)
  m_observers : List ObserverId

/-- The data members of `qtractorSubjectQueue`.  `m_pQueueItems k` is slot `k`
of the backing array; `none` is a slot no record was written to. -/
structure qtractorSubjectQueue where
  m_iQueueIndex : Nat
  m_iQueueSize : Nat
  m_pQueueItems : Nat → Option QueueItem

/-- A call recorded in the trace. -/
inductive Event where
  | notify (subject : SubjectId) (sender : Option ObserverId) (value : FloatVal)
      (bUpdate : Bool) : Event
  | update (observer : ObserverId) (bUpdate : Bool) : Event
deriving DecidableEq

/-- The state of the translation unit: every subject, the singleton queue
`g_subjectQueue`, and the calls made so far, oldest first. -/
structure World where
  subjects : SubjectId → qtractorSubject
  g_subjectQueue : qtractorSubjectQueue
  trace : List Event

/-! ## qtractorSubject: members of the header -/

/-- Modelled from the spec: `qtractorSubject::setQueued` is defined in
`qtractorObserver.h`, which is not among the sources.  The spec has `push`
mark the subject as queued and `pop` clear the flag, so the setter stores its
argument in `m_bQueued` and touches nothing else. -/
def qtractorSubject.setQueued (w : World) (pSubject : SubjectId) (bQueued : Bool) : World :=
  { w with subjects :=
      Function.update w.subjects pSubject { w.subjects pSubject with m_bQueued := bQueued } }

/-- Modelled from the spec: the toggle rule of `conform`, "map to exactly 0.0
or 1.0".  The spec gives no threshold; one half is taken. -/
def toggleValue (fValue : FloatVal) : FloatVal :=
  if FloatVal.fgt fValue (FloatVal.num (1 / 2)) then FloatVal.num 1 else FloatVal.num 0

/-- Modelled from the spec: the integer rule of `conform`, "round to nearest
whole number". -/
def roundValue : FloatVal → FloatVal
  | FloatVal.nan => FloatVal.nan
  | FloatVal.num q => FloatVal.num (round q)

/-- Modelled from the spec: the last rule of `conform`, "clamp to
`[minValue, maxValue]`". -/
def clampValue (fMin fMax fValue : FloatVal) : FloatVal :=
  if FloatVal.fgt fValue fMax then fMax
  else if FloatVal.flt fValue fMin then fMin
  else fValue

/-- Modelled from the spec: `qtractorSubject::safeValue` (the spec's `conform`)
is defined in `qtractorObserver.h`, which is not among the sources.  The spec:
"if a curve is attached, delegate entirely to it; else if `isToggled`, map to
exactly 0.0 or 1.0; else if `isInteger`, round to nearest whole number; then
clamp to `[minValue, maxValue]`". -/
def qtractorSubject.safeValue (s : qtractorSubject) (fValue : FloatVal) : FloatVal :=
  match s.m_pCurve with
  | some curve => curve fValue
  | none =>
    clampValue s.m_fMinValue s.m_fMaxValue
      (if s.m_bToggled then toggleValue fValue
       else if s.m_bInteger then roundValue fValue
       else fValue)

/-- The constructor `qtractorSubject::qtractorSubject(fValue, fDefaultValue)`. -/
def qtractorSubject.ctor (fValue fDefaultValue : FloatVal) : qtractorSubject :=
  { m_fValue := fValue, m_bQueued := false,
    m_fPrevValue := fValue, m_fLastValue := fValue,
    m_fMinValue := FloatVal.num 0, m_fMaxValue := FloatVal.num 1,
    m_fDefaultValue := fDefaultValue,
    m_bToggled := false, m_bInteger := false, m_pCurve := none,
    m_observers := [] }

/-! ## qtractorSubject::notify -/

/-- The body of the `while (iter.hasNext())` loop of `qtractorSubject::notify`,
run over the observers still to visit. -/
def qtractorSubject.notifyLoop (pSubject : SubjectId) (pSender : Option ObserverId)
    (fValue : FloatVal) (bUpdate : Bool) : List ObserverId → World → World
  | [], w => w
  | pObserver :: rest, w =>
    if pSender = some pObserver then
      qtractorSubject.notifyLoop pSubject pSender fValue bUpdate rest w
    else
      let s : qtractorSubject := { w.subjects pSubject with m_fLastValue := fValue }
      let w1 : World := { w with subjects := Function.update w.subjects pSubject s }
      let w2 : World := { w1 with trace := w1.trace ++ [Event.update pObserver bUpdate] }
      qtractorSubject.notifyLoop pSubject pSender fValue bUpdate rest w2

/-- The method `qtractorSubject::notify(pSender, fValue, bUpdate)` of subject
`pSubject`; the call itself is recorded first. -/
def qtractorSubject.notify (w : World) (pSubject : SubjectId) (pSender : Option ObserverId)
    (fValue : FloatVal) (bUpdate : Bool) : World :=
  qtractorSubject.notifyLoop pSubject pSender fValue bUpdate (w.subjects pSubject).m_observers
    { w with trace := w.trace ++ [Event.notify pSubject pSender fValue bUpdate] }

/-! ## qtractorSubjectQueue -/

/-- The constructor `qtractorSubjectQueue(iQueueSize)`: cursor 0 and, through
`resize` on a null array, a fresh array of `iQueueSize` unwritten slots. -/
def qtractorSubjectQueue.ctor (iQueueSize : Nat) : qtractorSubjectQueue :=
  { m_iQueueIndex := 0, m_iQueueSize := iQueueSize, m_pQueueItems := fun _ => none }

/-- The method `qtractorSubjectQueue::isEmpty`. -/
def qtractorSubjectQueue.isEmpty (q : qtractorSubjectQueue) : Bool :=
  decide (q.m_iQueueIndex = 0)

/-- The method `qtractorSubjectQueue::clear`. -/
def qtractorSubjectQueue.clear (w : World) : World :=
  { w with g_subjectQueue := { w.g_subjectQueue with m_iQueueIndex := 0 } }

/-- The read `m_pQueueItems[k]` of a whole record: `none` when slot `k` is
outside the array of `m_iQueueSize` slots or was never written. -/
def qtractorSubjectQueue.itemAt (q : qtractorSubjectQueue) (k : Nat) : Option QueueItem :=
  if k < q.m_iQueueSize then q.m_pQueueItems k else none

/-- The method `qtractorSubjectQueue::push`, with its return value. -/
def qtractorSubjectQueue.push (w : World) (pSubject : SubjectId) (pSender : Option ObserverId)
    (fValue : FloatVal) : Bool × World :=
  if w.g_subjectQueue.m_iQueueIndex ≥ w.g_subjectQueue.m_iQueueSize then
    (false, w)
  else
    let w1 := qtractorSubject.setQueued w pSubject true
    let q := w1.g_subjectQueue
    (true, { w1 with g_subjectQueue := { q with
      m_pQueueItems := Function.update q.m_pQueueItems q.m_iQueueIndex
        (some { subject := pSubject, sender := pSender, value := fValue }),
      m_iQueueIndex := q.m_iQueueIndex + 1 } })

/-- The method `qtractorSubjectQueue::pop`, with its return value; `none` when
the record under the cursor cannot be read. -/
def qtractorSubjectQueue.pop (w : World) (bUpdate : Bool) : Option (Bool × World) :=
  if w.g_subjectQueue.m_iQueueIndex = 0 then
    some (false, w)
  else
    let w1 : World := { w with g_subjectQueue :=
      { w.g_subjectQueue with m_iQueueIndex := w.g_subjectQueue.m_iQueueIndex - 1 } }
    match qtractorSubjectQueue.itemAt w1.g_subjectQueue w1.g_subjectQueue.m_iQueueIndex with
    | none => none
    | some pItem =>
      let w2 := qtractorSubject.notify w1 pItem.subject pItem.sender pItem.value bUpdate
      some (true, qtractorSubject.setQueued w2 pItem.subject false)

/-- The loop `while (pop(bUpdate)) ++i;` of `qtractorSubjectQueue::flush`, from a
count of `i` pops so far: the final count and state.  The counter is an `int`
in the source; it counts at most `m_iQueueIndex` pops and the one queue of the
program, `g_subjectQueue`, has the default capacity 1024, so it stays far from
`INT_MAX` and is a natural number here. -/
def qtractorSubjectQueue.flushLoop (w : World) (bUpdate : Bool) (i : Nat) :
    Option (Nat × World) :=
  match h : qtractorSubjectQueue.pop w bUpdate with
  | none => none
  | some (false, w1) => some (i, w1)
  | some (true, w1) => qtractorSubjectQueue.flushLoop w1 bUpdate (i + 1)
termination_by w.g_subjectQueue.m_iQueueIndex
decreasing_by
  have hloop : ∀ (l : List ObserverId) (s : SubjectId) (snd : Option ObserverId) (v : FloatVal)
      (u : World), (qtractorSubject.notifyLoop s snd v bUpdate l u).g_subjectQueue
        = u.g_subjectQueue := by
    intro l s snd v
    induction l with
    | nil => intro u; rfl
    | cons o rest ih =>
      intro u
      unfold qtractorSubject.notifyLoop
      split
      · exact ih u
      · rw [ih]
  unfold qtractorSubjectQueue.pop at h
  split at h
  · simp at h
  · dsimp only at h
    split at h
    · simp at h
    · simp only [Option.some.injEq, Prod.mk.injEq, true_and] at h
      subst h
      simp only [qtractorSubject.setQueued, qtractorSubject.notify, hloop]
      omega

/-- The method `qtractorSubjectQueue::flush`, with its return value `(i > 0)`. -/
def qtractorSubjectQueue.flush (w : World) (bUpdate : Bool) : Option (Bool × World) :=
  match qtractorSubjectQueue.flushLoop w bUpdate 0 with
  | none => none
  | some (i, w1) => some (decide (i > 0), w1)

/-- The loop `while (m_iQueueIndex > 0)` of `qtractorSubjectQueue::reset`. -/
def qtractorSubjectQueue.resetLoop (w : World) : Option World :=
  if w.g_subjectQueue.m_iQueueIndex > 0 then
    let w1 : World := { w with g_subjectQueue :=
      { w.g_subjectQueue with m_iQueueIndex := w.g_subjectQueue.m_iQueueIndex - 1 } }
    match qtractorSubjectQueue.itemAt w1.g_subjectQueue w1.g_subjectQueue.m_iQueueIndex with
    | none => none
    | some pItem => qtractorSubjectQueue.resetLoop (qtractorSubject.setQueued w1 pItem.subject false)
  else
    some w
termination_by w.g_subjectQueue.m_iQueueIndex
decreasing_by
  simp only [qtractorSubject.setQueued]
  omega

/-- The method `qtractorSubjectQueue::reset`: the loop, then `clear()`. -/
def qtractorSubjectQueue.reset (w : World) : Option World :=
  (qtractorSubjectQueue.resetLoop w).map qtractorSubjectQueue.clear

/-! ## qtractorSubject: the methods on the queue -/

/-- The method `qtractorSubject::setValue(fValue, pSender)` of subject
`pSubject`.  The result of `push` is dropped, as in the source. -/
def qtractorSubject.setValue (w : World) (pSubject : SubjectId) (fValue : FloatVal)
    (pSender : Option ObserverId) : World :=
  if FloatVal.feq fValue (w.subjects pSubject).m_fValue then
    w
  else
    let w1 : World :=
      if !(w.subjects pSubject).m_bQueued then
        let s : qtractorSubject :=
          { w.subjects pSubject with m_fPrevValue := (w.subjects pSubject).m_fValue }
        (qtractorSubjectQueue.push { w with subjects := Function.update w.subjects pSubject s }
          pSubject pSender fValue).2
      else
        w
    let s1 : qtractorSubject :=
      { w1.subjects pSubject with m_fValue := (w1.subjects pSubject).safeValue fValue }
    { w1 with subjects := Function.update w1.subjects pSubject s1 }

/-- The static method `qtractorSubject::flushQueue`. -/
def qtractorSubject.flushQueue (w : World) (bUpdate : Bool) : Option (Bool × World) :=
  qtractorSubjectQueue.flush w bUpdate

/-- The static method `qtractorSubject::resetQueue`. -/
def qtractorSubject.resetQueue (w : World) : Option World :=
  qtractorSubjectQueue.reset w

/-- The static method `qtractorSubject::clearQueue`. -/
def qtractorSubject.clearQueue (w : World) : World :=
  qtractorSubjectQueue.clear w

/-! ## Vocabulary of the statements -/

/-- The `update` calls one run of the loop of `notify` makes: one for every
entry of the observer list that is not the sender, in list order. -/
def updateCalls (pSender : Option ObserverId) (bUpdate : Bool) (l : List ObserverId) :
    List Event :=
  (l.filter (fun o => decide (pSender ≠ some o))).map (fun o => Event.update o bUpdate)

/-! ## Example states, and the states after push and pop -/

/-- An example state: every subject `s` is freshly constructed with value 0
and has its own two observers `10 s + 7` and `10 s + 8` (7 and 8 for subject
0, 17 and 18 for subject 1); the queue, of capacity 1, holds one record, of
subject 1 (the only queued subject) with sender 17 and value 1. -/
def fullWorld : World :=
  { subjects := fun s =>
      { qtractorSubject.ctor (FloatVal.num 0) (FloatVal.num 0) with
        m_bQueued := decide (s = 1), m_observers := [10 * s + 7, 10 * s + 8] },
    g_subjectQueue :=
      { m_iQueueIndex := 1, m_iQueueSize := 1,
        m_pQueueItems := fun k =>
          if k = 0 then some { subject := 1, sender := some 17, value := FloatVal.num 1 }
          else none },
    trace := [] }

/-- An example state: every subject `s` is freshly constructed with value 0
and has its own two observers `10 s + 7` and `10 s + 8` (7 and 8 for subject
0); the queue, of capacity 4, is empty. -/
def emptyWorld : World :=
  { subjects := fun s =>
      { qtractorSubject.ctor (FloatVal.num 0) (FloatVal.num 0) with
        m_observers := [10 * s + 7, 10 * s + 8] },
    g_subjectQueue := qtractorSubjectQueue.ctor 4,
    trace := [] }

/-- The state after a successful `push`. -/
def pushed (w : World) (pSubject : SubjectId) (pSender : Option ObserverId)
    (fValue : FloatVal) : World :=
  { subjects := Function.update w.subjects pSubject { w.subjects pSubject with m_bQueued := true },
    g_subjectQueue :=
      { m_iQueueIndex := w.g_subjectQueue.m_iQueueIndex + 1,
        m_iQueueSize := w.g_subjectQueue.m_iQueueSize,
        m_pQueueItems := Function.update w.g_subjectQueue.m_pQueueItems
          w.g_subjectQueue.m_iQueueIndex
          (some { subject := pSubject, sender := pSender, value := fValue }) },
    trace := w.trace }

/-- The state `pop` hands to `notify`: the cursor lowered by one. -/
def lowerCursor (w : World) : World :=
  { w with g_subjectQueue :=
    { w.g_subjectQueue with m_iQueueIndex := w.g_subjectQueue.m_iQueueIndex - 1 } }

/-! ## The pending records -/

/-- The records of slots `0 .. n-1`, oldest first. -/
def recordsBelow (q : qtractorSubjectQueue) (n : Nat) : List QueueItem :=
  (List.range n).filterMap (qtractorSubjectQueue.itemAt q)

/-- The pending records: those below the cursor, oldest first. -/
def pending (q : qtractorSubjectQueue) : List QueueItem :=
  recordsBelow q q.m_iQueueIndex

/-- The number of pending records of subject `s`. -/
def recordCount (q : qtractorSubjectQueue) (s : SubjectId) : Nat :=
  ((pending q).filter (fun pItem => decide (pItem.subject = s))).length

/-- Every slot below the cursor lies inside the backing array and holds a
record: what `pop` and `reset` need to read the queue. -/
def Readable (q : qtractorSubjectQueue) : Prop :=
  q.m_iQueueIndex ≤ q.m_iQueueSize ∧
  ∀ k, k < q.m_iQueueIndex → (q.m_pQueueItems k).isSome = true

instance (q : qtractorSubjectQueue) : Decidable (Readable q) := by
  unfold Readable
  infer_instance

/-- The calls one `pop` of record `pItem` makes with flag `b`: the `notify` of
its subject, then the `update` of that subject's observers but the sender. -/
def callsOf (w : World) (b : Bool) (pItem : QueueItem) : List Event :=
  Event.notify pItem.subject pItem.sender pItem.value b ::
    updateCalls pItem.sender b (w.subjects pItem.subject).m_observers

/-- Subject `s1` is subject `s` but for the queued flag and the last broadcast
value. -/
def sameButFlags (s s1 : qtractorSubject) : Prop :=
  s1 = { s with m_bQueued := s1.m_bQueued, m_fLastValue := s1.m_fLastValue }

/-! ## The queued-flag invariant -/

/-- The queue side of the invariant: the pending slots are readable, the
subject of every pending record is flagged as queued, and no two pending records
have the same subject. -/
def QueueInv (w : World) : Prop :=
  Readable w.g_subjectQueue ∧
  (∀ pItem ∈ pending w.g_subjectQueue, (w.subjects pItem.subject).m_bQueued = true) ∧
  ((pending w.g_subjectQueue).map (fun pItem => pItem.subject)).Nodup

instance (w : World) : Decidable (QueueInv w) := by
  unfold QueueInv
  infer_instance

/-- The flag side of the invariant: every subject flagged as queued has a
pending record. -/
def FlagInv (w : World) : Prop :=
  ∀ s, (w.subjects s).m_bQueued = true → ∃ pItem ∈ pending w.g_subjectQueue, pItem.subject = s

/-- The queue after a successful `push` of record `pItem`. -/
def pushQueue (q : qtractorSubjectQueue) (pItem : QueueItem) : qtractorSubjectQueue :=
  { m_iQueueIndex := q.m_iQueueIndex + 1,
    m_iQueueSize := q.m_iQueueSize,
    m_pQueueItems := Function.update q.m_pQueueItems q.m_iQueueIndex (some pItem) }

/-- The states reached from an empty queue with every subject unqueued by
`setValue`, `pop`, `flush` and `reset`, in any order and number. -/
inductive Reachable : World → Prop where
  | init (w : World) (h0 : w.g_subjectQueue.m_iQueueIndex = 0)
      (hf : ∀ s, (w.subjects s).m_bQueued = false) : Reachable w
  | setValue (w : World) (s : SubjectId) (v : FloatVal) (snd : Option ObserverId)
      (h : Reachable w) : Reachable (qtractorSubject.setValue w s v snd)
  | pop (w w1 : World) (b r : Bool) (h : Reachable w)
      (hpop : qtractorSubjectQueue.pop w b = some (r, w1)) : Reachable w1
  | flush (w w1 : World) (b r : Bool) (h : Reachable w)
      (hflush : qtractorSubject.flushQueue w b = some (r, w1)) : Reachable w1
  | reset (w w1 : World) (h : Reachable w)
      (hreset : qtractorSubject.resetQueue w = some w1) : Reachable w1

/-! ## At most one pending record -/

/-- A sequence of `setValue` calls on subject `s`, each with its value and
sender, with nothing in between. -/
def setValues (w : World) (s : SubjectId) (calls : List (FloatVal × Option ObserverId)) : World :=
  calls.foldl (fun w1 c => qtractorSubject.setValue w1 s c.1 c.2) w

/-! ## LIFO drain order -/

/-- Pushing the records of `l` one after the other, in list order. -/
def pushAll (w : World) (l : List QueueItem) : World :=
  l.foldl (fun w1 pItem =>
    (qtractorSubjectQueue.push w1 pItem.subject pItem.sender pItem.value).2) w

/-- The `notify` call the pop of record `pItem` makes. -/
def notifyOf (b : Bool) (pItem : QueueItem) : Event :=
  Event.notify pItem.subject pItem.sender pItem.value b

/-- Whether a call is a `notify`. -/
def isNotify : Event → Bool
  | Event.notify _ _ _ _ => true
  | Event.update _ _ => false

/-- Whether a call is a `notify` of subject `s`. -/
def isNotifyOf (s : SubjectId) : Event → Bool
  | Event.notify t _ _ _ => decide (t = s)
  | Event.update _ _ => false

/-- Three records, of subjects 0 (A), 1 (B) and 2 (C). -/
def recordsABC : List QueueItem :=
  [{ subject := 0, sender := none, value := FloatVal.num 1 },
   { subject := 1, sender := some 7, value := FloatVal.num 2 },
   { subject := 2, sender := some 8, value := FloatVal.num 0 }]

/-- Subject 0 of `emptyWorld`, whose observers are 7 and 8, after
`setValue(1, observer 8)`: it is queued, with sender 8 in its record. -/
def coalescedWorld : World :=
  qtractorSubject.setValue emptyWorld 0 (FloatVal.num 1) (some 8)

/-! ## The program at start -/

/-- The state of the program at start: every subject freshly constructed with
value 0 and no observer, and `g_subjectQueue` constructed with its default
capacity 1024. -/
def freshWorld : World :=
  { subjects := fun _ => qtractorSubject.ctor (FloatVal.num 0) (FloatVal.num 0),
    g_subjectQueue := qtractorSubjectQueue.ctor 1024,
    trace := [] }

/-! ## qtractorSubjectQueue::resize -/

/-- The method `qtractorSubjectQueue::resize(iNewSize)` on a constructed queue,
where `m_pQueueItems` is not null (the branch `if (pOldItems)`).  The new
array of `iNewSize` unwritten slots receives, by `memcpy`, the first `iOldSize
= min(m_iQueueIndex, iNewSize)` slots of the old one, and the capacity becomes
`iNewSize`; `m_iQueueIndex` is not assigned.  The result is `none` when
`memcpy` would read past the end of the old array. -/
def qtractorSubjectQueue.resize (w : World) (iNewSize : Nat) : Option World :=
  let iOldSize : Nat :=
    if w.g_subjectQueue.m_iQueueIndex > iNewSize then iNewSize
    else w.g_subjectQueue.m_iQueueIndex
  if iOldSize > w.g_subjectQueue.m_iQueueSize then
    none
  else
    some { subjects := w.subjects,
           g_subjectQueue :=
             { m_iQueueIndex := w.g_subjectQueue.m_iQueueIndex,
               m_iQueueSize := iNewSize,
               m_pQueueItems := fun k =>
                 if k < iOldSize then w.g_subjectQueue.m_pQueueItems k else none },
           trace := w.trace }

/-! ## conform with an open toggle rule, and example subjects -/

/-- A subject without a curve, not toggled, integer, with bounds
`minValue = 3/4 <= maxValue = 2`. -/
def integerSubject : qtractorSubject :=
  { qtractorSubject.ctor (FloatVal.num 1) (FloatVal.num 1) with
    m_fMinValue := FloatVal.num (3 / 4), m_fMaxValue := FloatVal.num 2, m_bInteger := true }

/-- Modelled from the spec: `conform` with its toggle rule left open.  The spec
says "if `isToggled`, map to exactly 0.0 or 1.0" and names neither threshold
nor comparison; `toggle` stands for that rule.  `qtractorSubject.safeValue` is
`safeValueWith toggleValue`, the rule with threshold one half. -/
def safeValueWith (toggle : FloatVal → FloatVal) (s : qtractorSubject) (fValue : FloatVal) :
    FloatVal :=
  match s.m_pCurve with
  | some curve => curve fValue
  | none =>
    clampValue s.m_fMinValue s.m_fMaxValue
      (if s.m_bToggled then toggle fValue
       else if s.m_bInteger then roundValue fValue
       else fValue)

/-- A subject without a curve, toggled, with bounds `minValue = a` and
`maxValue = b`. -/
def toggledWithBounds (a b : ℚ) : qtractorSubject :=
  { qtractorSubject.ctor (FloatVal.num 0) (FloatVal.num 0) with
    m_fMinValue := FloatVal.num a, m_fMaxValue := FloatVal.num b, m_bToggled := true }

/-- A subject without a curve, toggled, with bounds `3/4 <= 2`. -/
def toggledSubject : qtractorSubject := toggledWithBounds (3 / 4) 2

/-- A subject without a curve, toggled, with the bounds [0, 1] of the
constructor. -/
def switchSubject : qtractorSubject := toggledWithBounds 0 1

/-- A subject without a curve, not toggled, integer, with the whole-number
bounds [0, 5]. -/
def wholeIntegerSubject : qtractorSubject :=
  { qtractorSubject.ctor (FloatVal.num 0) (FloatVal.num 0) with
    m_fMaxValue := FloatVal.num 5, m_bInteger := true }

/-- A subject as the constructor leaves it: no curve, neither toggled nor
integer, bounds [0, 1]. -/
def plainSubject : qtractorSubject :=
  qtractorSubject.ctor (FloatVal.num 0) (FloatVal.num 0)

/-! ## Observers and the destructor of a subject -/

/-- The subject reference of every observer: `none` is the null pointer. -/
abbrev ObserverHeap := ObserverId → Option SubjectId

/-- Modelled from the spec: `qtractorObserver::setSubject` is defined in
`qtractorObserver.h`, which is not among the sources.  The spec has the
destructor of a subject "force-unbind" every bound observer so that the
"observer's subject reference becomes null": the setter stores its argument in
the subject reference of the observer. -/
def qtractorObserver.setSubject (h : ObserverHeap) (pObserver : ObserverId)
    (pSubject : Option SubjectId) : ObserverHeap :=
  Function.update h pObserver pSubject

/-- The loop `while (iter.hasNext()) iter.next()->setSubject(nullptr);` of the
destructor, run over the observers still to visit. -/
def qtractorSubject.dtorLoop : List ObserverId → ObserverHeap → ObserverHeap
  | [], h => h
  | pObserver :: rest, h =>
    qtractorSubject.dtorLoop rest (qtractorObserver.setSubject h pObserver none)

/-- The destructor `qtractorSubject::~qtractorSubject` of subject `pSubject`:
the loop over `m_observers`, then `m_observers.clear()`. -/
def qtractorSubject.dtor (w : World) (h : ObserverHeap) (pSubject : SubjectId) :
    World × ObserverHeap :=
  let h1 := qtractorSubject.dtorLoop (w.subjects pSubject).m_observers h
  let s : qtractorSubject := { w.subjects pSubject with m_observers := [] }
  ({ w with subjects := Function.update w.subjects pSubject s }, h1)

/-- The observers of `emptyWorld` bound to their subjects: observers `10 s + 7`
and `10 s + 8` refer to subject `s`, every other observer to nothing. -/
def boundObservers : ObserverHeap :=
  fun o => if o % 10 = 7 ∨ o % 10 = 8 then some (o / 10) else none

/-! # Theorems -/

/-! ## notify and setQueued -/

/-- A call of `notify` leaves the queue alone: the loop writes `m_fLastValue`
and the trace only. -/
theorem notifyLoop_queue (pSubject : SubjectId) (pSender : Option ObserverId) (fValue : FloatVal)
    (bUpdate : Bool) (l : List ObserverId) (w : World) :
    (qtractorSubject.notifyLoop pSubject pSender fValue bUpdate l w).g_subjectQueue
      = w.g_subjectQueue := by
  induction l generalizing w with
  | nil => rfl
  | cons o rest ih =>
    unfold qtractorSubject.notifyLoop
    split
    · exact ih w
    · rw [ih]

theorem setQueued_queue (w : World) (s : SubjectId) (b : Bool) :
    (qtractorSubject.setQueued w s b).g_subjectQueue = w.g_subjectQueue := rfl

theorem setQueued_trace (w : World) (s : SubjectId) (b : Bool) :
    (qtractorSubject.setQueued w s b).trace = w.trace := rfl

theorem setQueued_same (w : World) (s : SubjectId) (b : Bool) :
    (qtractorSubject.setQueued w s b).subjects s = { w.subjects s with m_bQueued := b } := by
  simp [qtractorSubject.setQueued]

theorem setQueued_other (w : World) (s t : SubjectId) (b : Bool) (h : t ≠ s) :
    (qtractorSubject.setQueued w s b).subjects t = w.subjects t := by
  simp [qtractorSubject.setQueued, Function.update_noteq h]

theorem notifyLoop_trace (s : SubjectId) (snd : Option ObserverId) (v : FloatVal) (b : Bool)
    (l : List ObserverId) (w : World) :
    (qtractorSubject.notifyLoop s snd v b l w).trace = w.trace ++ updateCalls snd b l := by
  induction l generalizing w with
  | nil => simp [qtractorSubject.notifyLoop, updateCalls]
  | cons o rest ih =>
    unfold qtractorSubject.notifyLoop
    by_cases h : snd = some o
    · rw [if_pos h, ih]
      simp [updateCalls, h]
    · rw [if_neg h]
      dsimp only
      rw [ih]
      simp [updateCalls, h]

theorem notifyLoop_other (s t : SubjectId) (snd : Option ObserverId) (v : FloatVal) (b : Bool)
    (l : List ObserverId) (w : World) (h : t ≠ s) :
    (qtractorSubject.notifyLoop s snd v b l w).subjects t = w.subjects t := by
  induction l generalizing w with
  | nil => rfl
  | cons o rest ih =>
    unfold qtractorSubject.notifyLoop
    split
    · exact ih w
    · rw [ih]
      simp [Function.update_noteq h]

theorem notifyLoop_same (s : SubjectId) (snd : Option ObserverId) (v : FloatVal) (b : Bool)
    (l : List ObserverId) (w : World) :
    (qtractorSubject.notifyLoop s snd v b l w).subjects s =
      { w.subjects s with
        m_fLastValue := if updateCalls snd b l = [] then (w.subjects s).m_fLastValue else v } := by
  induction l generalizing w with
  | nil => simp [qtractorSubject.notifyLoop, updateCalls]
  | cons o rest ih =>
    unfold qtractorSubject.notifyLoop
    by_cases h : snd = some o
    · rw [if_pos h, ih]
      simp [updateCalls, h]
    · rw [if_neg h]
      dsimp only
      rw [ih]
      by_cases h2 : updateCalls snd b rest = [] <;> simp [updateCalls, h, h2]

theorem notify_queue (w : World) (s : SubjectId) (snd : Option ObserverId) (v : FloatVal)
    (b : Bool) : (qtractorSubject.notify w s snd v b).g_subjectQueue = w.g_subjectQueue := by
  simp [qtractorSubject.notify, notifyLoop_queue]

theorem notify_trace (w : World) (s : SubjectId) (snd : Option ObserverId) (v : FloatVal)
    (b : Bool) :
    (qtractorSubject.notify w s snd v b).trace =
      w.trace ++ Event.notify s snd v b :: updateCalls snd b (w.subjects s).m_observers := by
  simp [qtractorSubject.notify, notifyLoop_trace]

theorem notify_other (w : World) (s t : SubjectId) (snd : Option ObserverId) (v : FloatVal)
    (b : Bool) (h : t ≠ s) : (qtractorSubject.notify w s snd v b).subjects t = w.subjects t := by
  simp [qtractorSubject.notify, notifyLoop_other _ _ _ _ _ _ _ h]

theorem notify_same (w : World) (s : SubjectId) (snd : Option ObserverId) (v : FloatVal)
    (b : Bool) :
    (qtractorSubject.notify w s snd v b).subjects s =
      { w.subjects s with
        m_fLastValue := if updateCalls snd b (w.subjects s).m_observers = []
          then (w.subjects s).m_fLastValue else v } := by
  simp [qtractorSubject.notify, notifyLoop_same]

/-- The flag `m_bQueued` and the observer list of every subject survive `notify`. -/
theorem notify_queued (w : World) (s t : SubjectId) (snd : Option ObserverId) (v : FloatVal)
    (b : Bool) :
    ((qtractorSubject.notify w s snd v b).subjects t).m_bQueued = (w.subjects t).m_bQueued ∧
    ((qtractorSubject.notify w s snd v b).subjects t).m_observers = (w.subjects t).m_observers ∧
    ((qtractorSubject.notify w s snd v b).subjects t).m_fValue = (w.subjects t).m_fValue := by
  by_cases h : t = s
  · subst h
    simp [notify_same]
  · simp [notify_other _ _ _ _ _ _ h]

/-! ## push and pop -/

theorem push_full (w : World) (s : SubjectId) (snd : Option ObserverId) (v : FloatVal)
    (h : w.g_subjectQueue.m_iQueueIndex ≥ w.g_subjectQueue.m_iQueueSize) :
    qtractorSubjectQueue.push w s snd v = (false, w) := by
  simp [qtractorSubjectQueue.push, h]

theorem push_free (w : World) (s : SubjectId) (snd : Option ObserverId) (v : FloatVal)
    (h : ¬ w.g_subjectQueue.m_iQueueIndex ≥ w.g_subjectQueue.m_iQueueSize) :
    qtractorSubjectQueue.push w s snd v = (true, pushed w s snd v) := by
  simp [qtractorSubjectQueue.push, h, pushed, qtractorSubject.setQueued]

/-- C7: `push` returns false exactly when the cursor has reached the capacity;
a failed `push` leaves the whole state as it was (cursor, every slot, every
queued flag); a successful `push` sets the subject's queued flag, stores the
record `(subject, sender, value)` in the slot of the old cursor, raises the
cursor by exactly one and leaves every other slot, the capacity, the other
subjects and the trace as they were. -/
theorem push_fails_exactly_at_capacity (w : World) (pSubject : SubjectId)
    (pSender : Option ObserverId) (fValue : FloatVal) :
    ((qtractorSubjectQueue.push w pSubject pSender fValue).1 = false ↔
      w.g_subjectQueue.m_iQueueIndex ≥ w.g_subjectQueue.m_iQueueSize) ∧
    ((qtractorSubjectQueue.push w pSubject pSender fValue).1 = false →
      (qtractorSubjectQueue.push w pSubject pSender fValue).2 = w) ∧
    ((qtractorSubjectQueue.push w pSubject pSender fValue).1 = true →
      ((qtractorSubjectQueue.push w pSubject pSender fValue).2.subjects pSubject).m_bQueued = true ∧
      (qtractorSubjectQueue.push w pSubject pSender fValue).2.g_subjectQueue.m_pQueueItems
          w.g_subjectQueue.m_iQueueIndex
        = some { subject := pSubject, sender := pSender, value := fValue } ∧
      (qtractorSubjectQueue.push w pSubject pSender fValue).2.g_subjectQueue.m_iQueueIndex
        = w.g_subjectQueue.m_iQueueIndex + 1 ∧
      (∀ k, k ≠ w.g_subjectQueue.m_iQueueIndex →
        (qtractorSubjectQueue.push w pSubject pSender fValue).2.g_subjectQueue.m_pQueueItems k
          = w.g_subjectQueue.m_pQueueItems k) ∧
      (qtractorSubjectQueue.push w pSubject pSender fValue).2.g_subjectQueue.m_iQueueSize
        = w.g_subjectQueue.m_iQueueSize ∧
      (∀ t, t ≠ pSubject →
        (qtractorSubjectQueue.push w pSubject pSender fValue).2.subjects t = w.subjects t) ∧
      (qtractorSubjectQueue.push w pSubject pSender fValue).2.trace = w.trace) := by
  unfold qtractorSubjectQueue.push
  by_cases h : w.g_subjectQueue.m_iQueueIndex ≥ w.g_subjectQueue.m_iQueueSize
  · simp [h]
  · simp only [h, if_false]
    refine ⟨by simp, by simp, fun _ => ⟨?_, ?_, ?_, ?_, ?_, ?_, ?_⟩⟩
    · simp [setQueued_same]
    · simp [setQueued_queue]
    · simp [setQueued_queue]
    · intro k hk
      simp [setQueued_queue, Function.update_noteq hk]
    · simp [setQueued_queue]
    · intro t ht
      simp [setQueued_other _ _ _ _ ht]
    · simp [setQueued_trace]

/-- C7, on examples: a `push` on the full queue of `fullWorld` fails and one on
the empty queue of `emptyWorld` succeeds. -/
theorem push_fails_exactly_at_capacity_witness :
    (qtractorSubjectQueue.push fullWorld 0 none (FloatVal.num 1)).1 = false ∧
    (qtractorSubjectQueue.push fullWorld 0 none (FloatVal.num 1)).2 = fullWorld ∧
    (qtractorSubjectQueue.push emptyWorld 0 none (FloatVal.num 1)).1 = true ∧
    (qtractorSubjectQueue.push emptyWorld 0 none
      (FloatVal.num 1)).2.g_subjectQueue.m_iQueueIndex = 1 :=
  ⟨((push_fails_exactly_at_capacity fullWorld 0 none (FloatVal.num 1)).1).2 (by decide),
   (push_fails_exactly_at_capacity fullWorld 0 none (FloatVal.num 1)).2.1 (by decide),
   by decide,
   ((push_fails_exactly_at_capacity emptyWorld 0 none (FloatVal.num 1)).2.2 (by decide)).2.2.1⟩

theorem pop_empty (w : World) (b : Bool) (h : w.g_subjectQueue.m_iQueueIndex = 0) :
    qtractorSubjectQueue.pop w b = some (false, w) := by
  simp [qtractorSubjectQueue.pop, h]

theorem pop_item (w : World) (b : Bool) (pItem : QueueItem)
    (h0 : w.g_subjectQueue.m_iQueueIndex ≠ 0)
    (hit : qtractorSubjectQueue.itemAt w.g_subjectQueue (w.g_subjectQueue.m_iQueueIndex - 1)
      = some pItem) :
    qtractorSubjectQueue.pop w b =
      some (true, qtractorSubject.setQueued
        (qtractorSubject.notify (lowerCursor w) pItem.subject pItem.sender pItem.value b)
        pItem.subject false) := by
  unfold qtractorSubjectQueue.pop
  rw [if_neg h0]
  have hit2 : qtractorSubjectQueue.itemAt
      { w.g_subjectQueue with m_iQueueIndex := w.g_subjectQueue.m_iQueueIndex - 1 }
      (w.g_subjectQueue.m_iQueueIndex - 1) = some pItem := hit
  simp only [hit2]
  rfl

theorem pop_unreadable (w : World) (b : Bool)
    (h0 : w.g_subjectQueue.m_iQueueIndex ≠ 0)
    (hit : qtractorSubjectQueue.itemAt w.g_subjectQueue (w.g_subjectQueue.m_iQueueIndex - 1)
      = none) :
    qtractorSubjectQueue.pop w b = none := by
  unfold qtractorSubjectQueue.pop
  rw [if_neg h0]
  have hit2 : qtractorSubjectQueue.itemAt
      { w.g_subjectQueue with m_iQueueIndex := w.g_subjectQueue.m_iQueueIndex - 1 }
      (w.g_subjectQueue.m_iQueueIndex - 1) = none := hit
  simp only [hit2]

/-- C8: on an empty queue `pop` returns false and changes nothing.  On a
non-empty queue whose newest record (the slot under the cursor) is `pItem`,
`pop` returns true, lowers the cursor by exactly one, calls `notify` once, on
the subject of `pItem` with the sender and value of `pItem` and the given
flag (which updates that subject's observers other than the sender), leaves
that subject with `m_bQueued == false`, and leaves every slot and the capacity
as they were.  The newest record is the one pushed last: a `pop` right after a
successful `push` notifies the pushed record and brings the cursor back. -/
theorem pop_newest_record (w : World) (bUpdate : Bool) :
    (w.g_subjectQueue.m_iQueueIndex = 0 →
      qtractorSubjectQueue.pop w bUpdate = some (false, w)) ∧
    (∀ pItem, w.g_subjectQueue.m_iQueueIndex ≠ 0 →
      qtractorSubjectQueue.itemAt w.g_subjectQueue (w.g_subjectQueue.m_iQueueIndex - 1)
        = some pItem →
      ∃ w1, qtractorSubjectQueue.pop w bUpdate = some (true, w1) ∧
        w1.g_subjectQueue.m_iQueueIndex = w.g_subjectQueue.m_iQueueIndex - 1 ∧
        w1.trace = w.trace ++ Event.notify pItem.subject pItem.sender pItem.value bUpdate ::
          updateCalls pItem.sender bUpdate (w.subjects pItem.subject).m_observers ∧
        (w1.subjects pItem.subject).m_bQueued = false ∧
        w1.g_subjectQueue.m_pQueueItems = w.g_subjectQueue.m_pQueueItems ∧
        w1.g_subjectQueue.m_iQueueSize = w.g_subjectQueue.m_iQueueSize) ∧
    (∀ pSubject pSender fValue,
      (qtractorSubjectQueue.push w pSubject pSender fValue).1 = true →
      ∃ w1, qtractorSubjectQueue.pop (qtractorSubjectQueue.push w pSubject pSender fValue).2
          bUpdate = some (true, w1) ∧
        w1.g_subjectQueue.m_iQueueIndex = w.g_subjectQueue.m_iQueueIndex ∧
        w1.trace = w.trace ++ Event.notify pSubject pSender fValue bUpdate ::
          updateCalls pSender bUpdate (w.subjects pSubject).m_observers) := by
  refine ⟨pop_empty w bUpdate, ?_, ?_⟩
  · intro pItem h0 hit
    refine ⟨_, pop_item w bUpdate pItem h0 hit, ?_, ?_, ?_, ?_, ?_⟩
    · simp [setQueued_queue, notify_queue, lowerCursor]
    · simp [setQueued_trace, notify_trace, lowerCursor]
    · simp [setQueued_same]
    · simp [setQueued_queue, notify_queue, lowerCursor]
    · simp [setQueued_queue, notify_queue, lowerCursor]
  · intro pSubject pSender fValue hp
    have hlt : ¬ w.g_subjectQueue.m_iQueueIndex ≥ w.g_subjectQueue.m_iQueueSize := by
      intro hge
      have := (push_full w pSubject pSender fValue hge)
      rw [this] at hp
      simp at hp
    have hpush := push_free w pSubject pSender fValue hlt
    rw [hpush]
    have h0 : (pushed w pSubject pSender fValue).g_subjectQueue.m_iQueueIndex ≠ 0 := by
      simp [pushed]
    have hit : qtractorSubjectQueue.itemAt (pushed w pSubject pSender fValue).g_subjectQueue
        ((pushed w pSubject pSender fValue).g_subjectQueue.m_iQueueIndex - 1)
        = some { subject := pSubject, sender := pSender, value := fValue } := by
      have : w.g_subjectQueue.m_iQueueIndex < w.g_subjectQueue.m_iQueueSize := by omega
      simp [pushed, qtractorSubjectQueue.itemAt, this]
    refine ⟨_, pop_item _ bUpdate _ h0 hit, ?_, ?_⟩
    · simp [setQueued_queue, notify_queue, lowerCursor, pushed]
    · simp [setQueued_trace, notify_trace, lowerCursor, pushed, qtractorSubject.setQueued]

/-- C8, on an example: `pop` on the one-record queue of `fullWorld` returns
true, brings the cursor to 0, notifies subject 1 with the record's sender 17
and value 1, which updates observer 18 only, and clears the queued flag. -/
theorem pop_newest_record_witness :
    ∃ w1, qtractorSubjectQueue.pop fullWorld true = some (true, w1) ∧
      w1.g_subjectQueue.m_iQueueIndex = 0 ∧
      w1.trace = [Event.notify 1 (some 17) (FloatVal.num 1) true, Event.update 18 true] ∧
      (w1.subjects 1).m_bQueued = false := by
  obtain ⟨w1, h1, h2, h3, h4, -, -⟩ := (pop_newest_record fullWorld true).2.1
    { subject := 1, sender := some 17, value := FloatVal.num 1 } (by decide) (by decide)
  exact ⟨w1, h1, h2, h3, h4⟩

/-! ## setValue -/

theorem setValue_equal (w : World) (s : SubjectId) (v : FloatVal) (snd : Option ObserverId)
    (h : FloatVal.feq v (w.subjects s).m_fValue = true) :
    qtractorSubject.setValue w s v snd = w := by
  simp [qtractorSubject.setValue, h]

/-- The state `setValue` reaches when the value differs, the subject is not
queued and the queue has room: previous value saved, record pushed, value
conformed. -/
theorem setValue_push (w : World) (s : SubjectId) (v : FloatVal) (snd : Option ObserverId)
    (hne : FloatVal.feq v (w.subjects s).m_fValue = false)
    (hq : (w.subjects s).m_bQueued = false)
    (hfree : w.g_subjectQueue.m_iQueueIndex < w.g_subjectQueue.m_iQueueSize) :
    qtractorSubject.setValue w s v snd =
      { subjects := Function.update w.subjects s
          { w.subjects s with
            m_fValue := (w.subjects s).safeValue v,
            m_fPrevValue := (w.subjects s).m_fValue,
            m_bQueued := true },
        g_subjectQueue :=
          { m_iQueueIndex := w.g_subjectQueue.m_iQueueIndex + 1,
            m_iQueueSize := w.g_subjectQueue.m_iQueueSize,
            m_pQueueItems := Function.update w.g_subjectQueue.m_pQueueItems
              w.g_subjectQueue.m_iQueueIndex (some { subject := s, sender := snd, value := v }) },
        trace := w.trace } := by
  have hfree2 : ¬ w.g_subjectQueue.m_iQueueSize ≤ w.g_subjectQueue.m_iQueueIndex := by omega
  simp [qtractorSubject.setValue, qtractorSubjectQueue.push, hne, hq, hfree2,
    qtractorSubject.safeValue, qtractorSubject.setQueued]

/-- The state `setValue` reaches when the value differs, the subject is not
queued and the queue is full: the record is dropped, the value conformed. -/
theorem setValue_full (w : World) (s : SubjectId) (v : FloatVal) (snd : Option ObserverId)
    (hne : FloatVal.feq v (w.subjects s).m_fValue = false)
    (hq : (w.subjects s).m_bQueued = false)
    (hfull : w.g_subjectQueue.m_iQueueIndex ≥ w.g_subjectQueue.m_iQueueSize) :
    qtractorSubject.setValue w s v snd =
      { subjects := Function.update w.subjects s
          { w.subjects s with
            m_fValue := (w.subjects s).safeValue v,
            m_fPrevValue := (w.subjects s).m_fValue },
        g_subjectQueue := w.g_subjectQueue,
        trace := w.trace } := by
  have hfull2 : w.g_subjectQueue.m_iQueueSize ≤ w.g_subjectQueue.m_iQueueIndex := hfull
  simp [qtractorSubject.setValue, qtractorSubjectQueue.push, hne, hq, hfull2,
    qtractorSubject.safeValue]

/-- The state `setValue` reaches when the value differs and the subject is
already queued: only the value changes. -/
theorem setValue_queued (w : World) (s : SubjectId) (v : FloatVal) (snd : Option ObserverId)
    (hne : FloatVal.feq v (w.subjects s).m_fValue = false)
    (hq : (w.subjects s).m_bQueued = true) :
    qtractorSubject.setValue w s v snd =
      { subjects := Function.update w.subjects s
          { w.subjects s with m_fValue := (w.subjects s).safeValue v },
        g_subjectQueue := w.g_subjectQueue,
        trace := w.trace } := by
  simp [qtractorSubject.setValue, hne, hq]

/-- C5: `setValue(v, sender)` with `v == m_fValue` returns the state it was
given: no record is added, the cursor stays, and the subject's value, previous
value, last broadcast value and queued flag stay. -/
theorem setValue_noop_on_equal_value (w : World) (pSubject : SubjectId) (fValue : FloatVal)
    (pSender : Option ObserverId)
    (h : FloatVal.feq fValue (w.subjects pSubject).m_fValue = true) :
    qtractorSubject.setValue w pSubject fValue pSender = w :=
  setValue_equal w pSubject fValue pSender h

/-- C5, on an example: writing 0 to subject 0 of `emptyWorld`, whose value is 0. -/
theorem setValue_noop_on_equal_value_witness :
    FloatVal.feq (FloatVal.num 0) (emptyWorld.subjects 0).m_fValue = true ∧
    qtractorSubject.setValue emptyWorld 0 (FloatVal.num 0) (some 7) = emptyWorld :=
  ⟨by decide, setValue_noop_on_equal_value emptyWorld 0 (FloatVal.num 0) (some 7) (by decide)⟩

/-- C4: after `setValue(newValue, sender)` with `newValue` different from the
current value, the subject's value is `safeValue(newValue)`, whatever `push`
did.  When the queue is full and the subject not queued, the queue (cursor,
capacity, every slot) is as it was, the subject is still not queued and its
value is `safeValue(newValue)`. -/
theorem setValue_value_survives_overflow (w : World) (pSubject : SubjectId) (fValue : FloatVal)
    (pSender : Option ObserverId)
    (hne : FloatVal.feq fValue (w.subjects pSubject).m_fValue = false) :
    ((qtractorSubject.setValue w pSubject fValue pSender).subjects pSubject).m_fValue
      = (w.subjects pSubject).safeValue fValue ∧
    (w.g_subjectQueue.m_iQueueIndex = w.g_subjectQueue.m_iQueueSize →
      (w.subjects pSubject).m_bQueued = false →
      (qtractorSubject.setValue w pSubject fValue pSender).g_subjectQueue = w.g_subjectQueue ∧
      ((qtractorSubject.setValue w pSubject fValue pSender).subjects pSubject).m_bQueued = false ∧
      ((qtractorSubject.setValue w pSubject fValue pSender).subjects pSubject).m_fValue
        = (w.subjects pSubject).safeValue fValue) := by
  have key : ((qtractorSubject.setValue w pSubject fValue pSender).subjects pSubject).m_fValue
      = (w.subjects pSubject).safeValue fValue := by
    cases hq : (w.subjects pSubject).m_bQueued
    · by_cases hfull : w.g_subjectQueue.m_iQueueIndex ≥ w.g_subjectQueue.m_iQueueSize
      · rw [setValue_full w pSubject fValue pSender hne hq hfull]
        simp
      · rw [setValue_push w pSubject fValue pSender hne hq (by omega)]
        simp
    · rw [setValue_queued w pSubject fValue pSender hne hq]
      simp
  refine ⟨key, fun hfull hq => ⟨?_, ?_, key⟩⟩
  · rw [setValue_full w pSubject fValue pSender hne hq (by omega)]
  · rw [setValue_full w pSubject fValue pSender hne hq (by omega)]
    simp [hq]

/-- C4, on an example: writing 2 to the unqueued subject 0 of `fullWorld`,
whose queue is full; the value becomes the clamped 1 and no record is added. -/
theorem setValue_value_survives_overflow_witness :
    FloatVal.feq (FloatVal.num 2) (fullWorld.subjects 0).m_fValue = false ∧
    ((qtractorSubject.setValue fullWorld 0 (FloatVal.num 2) none).subjects 0).m_fValue
      = FloatVal.num 1 ∧
    (qtractorSubject.setValue fullWorld 0 (FloatVal.num 2) none).g_subjectQueue
      = fullWorld.g_subjectQueue := by
  have h := setValue_value_survives_overflow fullWorld 0 (FloatVal.num 2) none (by decide)
  refine ⟨by decide, ?_, (h.2 rfl rfl).1⟩
  rw [h.1]
  decide

/-! ## The pending records -/

theorem recordsBelow_succ (q : qtractorSubjectQueue) (n : Nat) :
    recordsBelow q (n + 1) = recordsBelow q n ++ (qtractorSubjectQueue.itemAt q n).toList := by
  unfold recordsBelow
  rw [List.range_succ, List.filterMap_append]
  cases h : qtractorSubjectQueue.itemAt q n <;> simp [List.filterMap, h]

theorem recordsBelow_congr (q q1 : qtractorSubjectQueue) (n : Nat)
    (h : ∀ k, k < n → qtractorSubjectQueue.itemAt q1 k = qtractorSubjectQueue.itemAt q k) :
    recordsBelow q1 n = recordsBelow q n := by
  induction n with
  | zero => rfl
  | succ n ih =>
    rw [recordsBelow_succ, recordsBelow_succ, ih (fun k hk => h k (by omega)), h n (by omega)]

theorem recordsBelow_length_le (q : qtractorSubjectQueue) (n : Nat) :
    (recordsBelow q n).length ≤ n := by
  unfold recordsBelow
  calc ((List.range n).filterMap (qtractorSubjectQueue.itemAt q)).length
      ≤ (List.range n).length := List.length_filterMap_le _ _
    _ = n := List.length_range n

theorem itemAt_of_readable (q : qtractorSubjectQueue) (h : Readable q) (k : Nat)
    (hk : k < q.m_iQueueIndex) :
    ∃ pItem, qtractorSubjectQueue.itemAt q k = some pItem ∧ q.m_pQueueItems k = some pItem := by
  obtain ⟨hle, hw⟩ := h
  have h1 := hw k hk
  rw [Option.isSome_iff_exists] at h1
  obtain ⟨pItem, hp⟩ := h1
  refine ⟨pItem, ?_, hp⟩
  have : k < q.m_iQueueSize := by omega
  simp [qtractorSubjectQueue.itemAt, this, hp]

/-! ## flush and reset drain the queue -/

theorem flushLoop_pop_true (w w1 : World) (b : Bool) (i : Nat)
    (h : qtractorSubjectQueue.pop w b = some (true, w1)) :
    qtractorSubjectQueue.flushLoop w b i = qtractorSubjectQueue.flushLoop w1 b (i + 1) := by
  rw [qtractorSubjectQueue.flushLoop]
  split <;> simp_all

theorem flushLoop_pop_false (w w1 : World) (b : Bool) (i : Nat)
    (h : qtractorSubjectQueue.pop w b = some (false, w1)) :
    qtractorSubjectQueue.flushLoop w b i = some (i, w1) := by
  rw [qtractorSubjectQueue.flushLoop]
  split <;> simp_all

theorem flushLoop_pop_none (w : World) (b : Bool) (i : Nat)
    (h : qtractorSubjectQueue.pop w b = none) :
    qtractorSubjectQueue.flushLoop w b i = none := by
  rw [qtractorSubjectQueue.flushLoop]
  split <;> simp_all

theorem sameButFlags_refl (s : qtractorSubject) : sameButFlags s s := rfl

theorem sameButFlags_trans (s s1 s2 : qtractorSubject) (h1 : sameButFlags s s1)
    (h2 : sameButFlags s1 s2) : sameButFlags s s2 := by
  unfold sameButFlags at *
  rw [h2, h1]

theorem sameButFlags_observers (s s1 : qtractorSubject) (h : sameButFlags s s1) :
    s1.m_observers = s.m_observers ∧ s1.m_fValue = s.m_fValue := by
  unfold sameButFlags at h
  rw [h]
  exact ⟨rfl, rfl⟩

/-- The subjects after the successful `pop` of record `pItem`. -/
theorem pop_subjects (w : World) (b : Bool) (pItem : QueueItem) (t : SubjectId) :
    sameButFlags (w.subjects t)
      ((qtractorSubject.setQueued
        (qtractorSubject.notify (lowerCursor w) pItem.subject pItem.sender pItem.value b)
        pItem.subject false).subjects t) ∧
    ((qtractorSubject.setQueued
        (qtractorSubject.notify (lowerCursor w) pItem.subject pItem.sender pItem.value b)
        pItem.subject false).subjects t).m_bQueued
      = ((w.subjects t).m_bQueued && !decide (pItem.subject = t)) := by
  by_cases h : t = pItem.subject
  · subst h
    rw [setQueued_same, notify_same]
    simp [sameButFlags, lowerCursor]
  · rw [setQueued_other _ _ _ _ h, notify_other _ _ _ _ _ _ h]
    have h2 : ¬ pItem.subject = t := fun e => h e.symm
    simp [sameButFlags, lowerCursor, h2]

/-- What the loop of `flush` does on a readable queue of `n` pending records:
it ends after `n` successful pops with the cursor at 0, having made the calls
of the pending records newest first, and having cleared the queued flag of
their subjects. -/
theorem flushLoop_drains (b : Bool) : ∀ (n : Nat) (w : World) (i : Nat),
    w.g_subjectQueue.m_iQueueIndex = n → Readable w.g_subjectQueue →
    ∃ w1, qtractorSubjectQueue.flushLoop w b i = some (i + n, w1) ∧
      w1.g_subjectQueue = { w.g_subjectQueue with m_iQueueIndex := 0 } ∧
      w1.trace = w.trace ++ (pending w.g_subjectQueue).reverse.flatMap (callsOf w b) ∧
      (∀ t, sameButFlags (w.subjects t) (w1.subjects t)) ∧
      (∀ t, (w1.subjects t).m_bQueued =
        ((w.subjects t).m_bQueued &&
          !(pending w.g_subjectQueue).any (fun pItem => decide (pItem.subject = t)))) := by
  intro n
  induction n with
  | zero =>
    intro w i h0 _
    refine ⟨w, flushLoop_pop_false w w b i (pop_empty w b h0), ?_, ?_, ?_, ?_⟩
    · rw [← h0]
    · simp [pending, recordsBelow, h0]
    · exact fun t => sameButFlags_refl _
    · simp [pending, recordsBelow, h0]
  | succ n ih =>
    intro w i hn hr
    obtain ⟨pItem, hit, hslot⟩ := itemAt_of_readable w.g_subjectQueue hr n (by omega)
    have h0 : w.g_subjectQueue.m_iQueueIndex ≠ 0 := by omega
    have hit1 : qtractorSubjectQueue.itemAt w.g_subjectQueue (w.g_subjectQueue.m_iQueueIndex - 1)
        = some pItem := by
      rw [hn]
      exact hit
    have hpop := pop_item w b pItem h0 hit1
    -- the state after the pop
    have hq1 : (qtractorSubject.setQueued
        (qtractorSubject.notify (lowerCursor w) pItem.subject pItem.sender pItem.value b)
        pItem.subject false).g_subjectQueue
        = { w.g_subjectQueue with m_iQueueIndex := n } := by
      rw [setQueued_queue, notify_queue]
      simp [lowerCursor, hn]
    have hr1 : Readable (qtractorSubject.setQueued
        (qtractorSubject.notify (lowerCursor w) pItem.subject pItem.sender pItem.value b)
        pItem.subject false).g_subjectQueue := by
      rw [hq1]
      refine ⟨?_, ?_⟩
      · have := hr.1
        show n ≤ w.g_subjectQueue.m_iQueueSize
        omega
      · intro k hk
        exact hr.2 k (by have : k < n := hk; omega)
    have hpend : pending w.g_subjectQueue =
        pending (qtractorSubject.setQueued
          (qtractorSubject.notify (lowerCursor w) pItem.subject pItem.sender pItem.value b)
          pItem.subject false).g_subjectQueue ++ [pItem] := by
      rw [hq1]
      unfold pending
      rw [hn, recordsBelow_succ, hit]
      rfl
    obtain ⟨w1, hloop, hqueue, htrace, hframe, hflag⟩ := ih _ (i + 1) (by rw [hq1]) hr1
    refine ⟨w1, ?_, ?_, ?_, ?_, ?_⟩
    · rw [flushLoop_pop_true w _ b i hpop, hloop]
      congr 2
      omega
    · rw [hqueue, hq1]
    · rw [htrace, hpend, setQueued_trace, notify_trace]
      have hcalls : callsOf (qtractorSubject.setQueued
          (qtractorSubject.notify (lowerCursor w) pItem.subject pItem.sender pItem.value b)
          pItem.subject false) b = callsOf w b := by
        funext it
        unfold callsOf
        rw [(sameButFlags_observers _ _ (pop_subjects w b pItem it.subject).1).1]
      rw [hcalls]
      simp only [List.reverse_append, List.reverse_cons, List.reverse_nil,
        List.nil_append, List.flatMap_cons, List.singleton_append, List.append_assoc]
      rfl
    · intro t
      exact sameButFlags_trans _ _ _ (pop_subjects w b pItem t).1 (hframe t)
    · intro t
      rw [hflag t, (pop_subjects w b pItem t).2, hpend]
      simp only [List.any_append, List.any_cons, List.any_nil, Bool.or_false]
      cases (w.subjects t).m_bQueued <;> cases decide (pItem.subject = t) <;> simp

/-- C9: on a queue with cursor `c <= capacity` whose `c` pending slots hold
records (as they do in every state the operations produce), `flush` ends: its
loop stops after exactly `c` successful pops, the queue is then empty (cursor
0, `isEmpty` true), and the result is true exactly when `c > 0`.  With `c = 0`
the result is false and the state is unchanged. -/
theorem flush_drains_queue (w : World) (bUpdate : Bool)
    (hle : w.g_subjectQueue.m_iQueueIndex ≤ w.g_subjectQueue.m_iQueueSize)
    (hwritten : ∀ k, k < w.g_subjectQueue.m_iQueueIndex →
      (w.g_subjectQueue.m_pQueueItems k).isSome = true) :
    ∃ w1, qtractorSubject.flushQueue w bUpdate
        = some (decide (w.g_subjectQueue.m_iQueueIndex > 0), w1) ∧
      qtractorSubjectQueue.flushLoop w bUpdate 0 = some (w.g_subjectQueue.m_iQueueIndex, w1) ∧
      w1.g_subjectQueue.m_iQueueIndex = 0 ∧
      qtractorSubjectQueue.isEmpty w1.g_subjectQueue = true ∧
      (w.g_subjectQueue.m_iQueueIndex = 0 → w1 = w) := by
  obtain ⟨w1, hloop, hqueue, -, -, -⟩ :=
    flushLoop_drains bUpdate w.g_subjectQueue.m_iQueueIndex w 0 rfl ⟨hle, hwritten⟩
  rw [Nat.zero_add] at hloop
  refine ⟨w1, ?_, hloop, ?_, ?_, ?_⟩
  · simp [qtractorSubject.flushQueue, qtractorSubjectQueue.flush, hloop]
  · rw [hqueue]
  · rw [hqueue]
    rfl
  · intro h0
    have h2 := flushLoop_pop_false w w bUpdate 0 (pop_empty w bUpdate h0)
    rw [h2] at hloop
    simp only [Option.some.injEq, Prod.mk.injEq] at hloop
    exact hloop.2.symm

/-- C9, on an example: the queue of `fullWorld` has cursor 1 and capacity 1;
`flush` returns true after one pop and leaves the queue empty. -/
theorem flush_drains_queue_witness :
    ∃ w1, qtractorSubject.flushQueue fullWorld true = some (true, w1) ∧
      qtractorSubjectQueue.flushLoop fullWorld true 0 = some (1, w1) ∧
      w1.g_subjectQueue.m_iQueueIndex = 0 := by
  obtain ⟨w1, h1, h2, h3, -, -⟩ := flush_drains_queue fullWorld true (by decide) (by decide)
  exact ⟨w1, h1, h2, h3⟩

/-! ## The queued-flag invariant -/

theorem pending_pushQueue (q : qtractorSubjectQueue) (pItem : QueueItem)
    (h : q.m_iQueueIndex < q.m_iQueueSize) :
    pending (pushQueue q pItem) = pending q ++ [pItem] := by
  unfold pending
  show recordsBelow (pushQueue q pItem) (q.m_iQueueIndex + 1) = _
  rw [recordsBelow_succ]
  have h1 : qtractorSubjectQueue.itemAt (pushQueue q pItem) q.m_iQueueIndex = some pItem := by
    simp [qtractorSubjectQueue.itemAt, pushQueue, h]
  have h2 : recordsBelow (pushQueue q pItem) q.m_iQueueIndex = recordsBelow q q.m_iQueueIndex := by
    apply recordsBelow_congr
    intro k hk
    have hne : k ≠ q.m_iQueueIndex := by omega
    simp [qtractorSubjectQueue.itemAt, pushQueue, Function.update_noteq hne]
  rw [h1, h2]
  rfl

theorem readable_pushQueue (q : qtractorSubjectQueue) (pItem : QueueItem)
    (h : q.m_iQueueIndex < q.m_iQueueSize) (hr : Readable q) :
    Readable (pushQueue q pItem) := by
  refine ⟨?_, ?_⟩
  · show q.m_iQueueIndex + 1 ≤ q.m_iQueueSize
    omega
  · intro k hk
    have hk1 : k < q.m_iQueueIndex + 1 := hk
    by_cases hkk : k = q.m_iQueueIndex
    · simp [pushQueue, hkk]
    · have := hr.2 k (by omega)
      simp [pushQueue, Function.update_noteq hkk, this]

theorem pending_lower (q : qtractorSubjectQueue) (n : Nat) (pItem : QueueItem)
    (hn : q.m_iQueueIndex = n + 1) (hit : qtractorSubjectQueue.itemAt q n = some pItem) :
    pending q = pending { q with m_iQueueIndex := n } ++ [pItem] := by
  unfold pending
  rw [hn, recordsBelow_succ, hit]
  rfl

theorem readable_lower (q : qtractorSubjectQueue) (n : Nat) (hn : q.m_iQueueIndex = n + 1)
    (hr : Readable q) : Readable { q with m_iQueueIndex := n } := by
  refine ⟨?_, ?_⟩
  · have := hr.1
    show n ≤ q.m_iQueueSize
    omega
  · intro k hk
    exact hr.2 k (by have : k < n := hk; omega)

/-- Both sides of the invariant survive a change of state that keeps the
queue and every queued flag. -/
theorem inv_same (w w1 : World) (hq : w1.g_subjectQueue = w.g_subjectQueue)
    (hf : ∀ t, (w1.subjects t).m_bQueued = (w.subjects t).m_bQueued)
    (h : QueueInv w ∧ FlagInv w) : QueueInv w1 ∧ FlagInv w1 := by
  obtain ⟨⟨hr, hrec, hnd⟩, hflag⟩ := h
  refine ⟨⟨?_, ?_, ?_⟩, ?_⟩
  · rw [hq]; exact hr
  · intro pItem hp
    rw [hq] at hp
    rw [hf]
    exact hrec pItem hp
  · rw [hq]; exact hnd
  · intro t ht
    rw [hf] at ht
    rw [hq]
    exact hflag t ht

/-- The queue side of the invariant survives the push of a record of an unqueued
subject. -/
theorem queueInv_pushed (w w1 : World) (pItem : QueueItem)
    (hfree : w.g_subjectQueue.m_iQueueIndex < w.g_subjectQueue.m_iQueueSize)
    (hun : (w.subjects pItem.subject).m_bQueued = false)
    (hq : w1.g_subjectQueue = pushQueue w.g_subjectQueue pItem)
    (hf : ∀ t, (w1.subjects t).m_bQueued = (decide (t = pItem.subject) || (w.subjects t).m_bQueued))
    (h : QueueInv w) : QueueInv w1 := by
  obtain ⟨hr, hrec, hnd⟩ := h
  have hpend := pending_pushQueue w.g_subjectQueue pItem hfree
  refine ⟨?_, ?_, ?_⟩
  · rw [hq]
    exact readable_pushQueue _ _ hfree hr
  · intro p hp
    rw [hq, hpend, List.mem_append] at hp
    rw [hf]
    rcases hp with hp | hp
    · simp [hrec p hp]
    · simp only [List.mem_singleton] at hp
      simp [hp]
  · rw [hq, hpend, List.map_append, List.nodup_append]
    refine ⟨hnd, by simp, ?_⟩
    intro x hx hx2
    simp only [List.map_cons, List.map_nil, List.mem_singleton] at hx2
    rw [List.mem_map] at hx
    obtain ⟨p, hp, hps⟩ := hx
    have := hrec p hp
    rw [hps, hx2, hun] at this
    exact Bool.noConfusion this

theorem flagInv_pushed (w w1 : World) (pItem : QueueItem)
    (hfree : w.g_subjectQueue.m_iQueueIndex < w.g_subjectQueue.m_iQueueSize)
    (hq : w1.g_subjectQueue = pushQueue w.g_subjectQueue pItem)
    (hf : ∀ t, (w1.subjects t).m_bQueued = (decide (t = pItem.subject) || (w.subjects t).m_bQueued))
    (h : FlagInv w) : FlagInv w1 := by
  have hpend := pending_pushQueue w.g_subjectQueue pItem hfree
  intro t ht
  rw [hq, hpend]
  rw [hf] at ht
  by_cases hts : t = pItem.subject
  · exact ⟨pItem, by simp, hts.symm⟩
  · simp only [hts, decide_False, Bool.false_or] at ht
    obtain ⟨p, hp, hps⟩ := h t ht
    exact ⟨p, List.mem_append_left _ hp, hps⟩

/-- Both sides of the invariant survive the removal of the newest record, whose
subject loses its queued flag. -/
theorem inv_popped (w w1 : World) (n : Nat) (pItem : QueueItem)
    (hn : w.g_subjectQueue.m_iQueueIndex = n + 1)
    (hit : qtractorSubjectQueue.itemAt w.g_subjectQueue n = some pItem)
    (hq : w1.g_subjectQueue = { w.g_subjectQueue with m_iQueueIndex := n })
    (hf : ∀ t, (w1.subjects t).m_bQueued = ((w.subjects t).m_bQueued && !decide (pItem.subject = t)))
    (h : QueueInv w ∧ FlagInv w) : QueueInv w1 ∧ FlagInv w1 := by
  obtain ⟨⟨hr, hrec, hnd⟩, hflag⟩ := h
  have hpend := pending_lower w.g_subjectQueue n pItem hn hit
  rw [hpend, List.map_append, List.nodup_append] at hnd
  obtain ⟨hnd1, -, hdisj⟩ := hnd
  refine ⟨⟨?_, ?_, ?_⟩, ?_⟩
  · rw [hq]
    exact readable_lower _ n hn hr
  · intro p hp
    rw [hq] at hp
    have hpq := hrec p (by rw [hpend]; exact List.mem_append_left _ hp)
    have hne : ¬ pItem.subject = p.subject := by
      intro e
      exact hdisj (List.mem_map_of_mem _ hp) (by simp [e])
    rw [hf, hpq]
    simp [hne]
  · rw [hq]
    exact hnd1
  · intro t ht
    rw [hf] at ht
    simp only [Bool.and_eq_true, Bool.not_eq_true', decide_eq_false_iff_not] at ht
    obtain ⟨p, hp, hps⟩ := hflag t ht.1
    rw [hpend, List.mem_append] at hp
    rcases hp with hp | hp
    · rw [hq]
      exact ⟨p, hp, hps⟩
    · simp only [List.mem_singleton] at hp
      rw [hp] at hps
      exact absurd hps ht.2

/-- What the loop of `reset` does on a readable queue of `n` pending records:
it ends with the cursor at 0, no call made, and the queued flag of the subjects
of the pending records cleared; nothing else is written. -/
theorem resetLoop_drains : ∀ (n : Nat) (w : World),
    w.g_subjectQueue.m_iQueueIndex = n → Readable w.g_subjectQueue →
    ∃ w1, qtractorSubjectQueue.resetLoop w = some w1 ∧
      w1.g_subjectQueue = { w.g_subjectQueue with m_iQueueIndex := 0 } ∧
      w1.trace = w.trace ∧
      (∀ t, w1.subjects t = { w.subjects t with m_bQueued :=
        ((w.subjects t).m_bQueued &&
          !(pending w.g_subjectQueue).any (fun pItem => decide (pItem.subject = t))) }) := by
  intro n
  induction n with
  | zero =>
    intro w h0 _
    refine ⟨w, ?_, ?_, rfl, ?_⟩
    · rw [qtractorSubjectQueue.resetLoop]
      simp [h0]
    · rw [← h0]
    · intro t
      simp [pending, recordsBelow, h0]
  | succ n ih =>
    intro w hn hr
    obtain ⟨pItem, hit, -⟩ := itemAt_of_readable w.g_subjectQueue hr n (by omega)
    have hpos : w.g_subjectQueue.m_iQueueIndex > 0 := by omega
    have hit2 : qtractorSubjectQueue.itemAt
        { w.g_subjectQueue with m_iQueueIndex := w.g_subjectQueue.m_iQueueIndex - 1 }
        (w.g_subjectQueue.m_iQueueIndex - 1) = some pItem := by
      rw [hn]
      exact hit
    have hstep : qtractorSubjectQueue.resetLoop w =
        qtractorSubjectQueue.resetLoop
          (qtractorSubject.setQueued (lowerCursor w) pItem.subject false) := by
      rw [qtractorSubjectQueue.resetLoop]
      simp only [hpos, if_true, hit2]
      rfl
    have hq1 : (qtractorSubject.setQueued (lowerCursor w) pItem.subject false).g_subjectQueue
        = { w.g_subjectQueue with m_iQueueIndex := n } := by
      rw [setQueued_queue]
      simp [lowerCursor, hn]
    have hpend := pending_lower w.g_subjectQueue n pItem hn hit
    obtain ⟨w1, hloop, hqueue, htrace, hsub⟩ := ih
      (qtractorSubject.setQueued (lowerCursor w) pItem.subject false)
      (by rw [hq1]) (by rw [hq1]; exact readable_lower _ n hn hr)
    refine ⟨w1, by rw [hstep, hloop], ?_, ?_, ?_⟩
    · rw [hqueue, hq1]
    · rw [htrace, setQueued_trace]
      rfl
    · intro t
      rw [hsub t, hq1, hpend]
      simp only [List.any_append, List.any_cons, List.any_nil, Bool.or_false]
      by_cases h : t = pItem.subject
      · subst h
        rw [setQueued_same]
        simp [lowerCursor]
      · rw [setQueued_other _ _ _ _ h]
        have h2 : ¬ pItem.subject = t := fun e => h e.symm
        simp [lowerCursor, h2]

/-! ### The operations keep the invariant -/

theorem inv_setValue (w : World) (s : SubjectId) (v : FloatVal) (snd : Option ObserverId)
    (h : QueueInv w ∧ FlagInv w) :
    QueueInv (qtractorSubject.setValue w s v snd) ∧
      FlagInv (qtractorSubject.setValue w s v snd) := by
  cases hne : FloatVal.feq v (w.subjects s).m_fValue
  · cases hq : (w.subjects s).m_bQueued
    · by_cases hfull : w.g_subjectQueue.m_iQueueIndex ≥ w.g_subjectQueue.m_iQueueSize
      · rw [setValue_full w s v snd hne hq hfull]
        refine inv_same w _ rfl ?_ h
        intro t
        by_cases hts : t = s
        · subst hts; simp
        · simp [Function.update_noteq hts]
      · have hfree : w.g_subjectQueue.m_iQueueIndex < w.g_subjectQueue.m_iQueueSize := by omega
        rw [setValue_push w s v snd hne hq hfree]
        have hf : ∀ t, ((Function.update w.subjects s
            { w.subjects s with
              m_fValue := (w.subjects s).safeValue v,
              m_fPrevValue := (w.subjects s).m_fValue,
              m_bQueued := true }) t).m_bQueued
            = (decide (t = s) || (w.subjects t).m_bQueued) := by
          intro t
          by_cases hts : t = s
          · subst hts; simp
          · simp [Function.update_noteq hts, hts]
        exact ⟨queueInv_pushed w _ { subject := s, sender := snd, value := v } hfree hq rfl hf h.1,
          flagInv_pushed w _ { subject := s, sender := snd, value := v } hfree rfl hf h.2⟩
    · rw [setValue_queued w s v snd hne hq]
      refine inv_same w _ rfl ?_ h
      intro t
      by_cases hts : t = s
      · subst hts; simp
      · simp [Function.update_noteq hts]
  · rw [setValue_equal w s v snd hne]
    exact h

theorem inv_pop (w w1 : World) (b r : Bool) (hpop : qtractorSubjectQueue.pop w b = some (r, w1))
    (h : QueueInv w ∧ FlagInv w) : QueueInv w1 ∧ FlagInv w1 := by
  by_cases h0 : w.g_subjectQueue.m_iQueueIndex = 0
  · rw [pop_empty w b h0] at hpop
    simp only [Option.some.injEq, Prod.mk.injEq] at hpop
    rw [← hpop.2]
    exact h
  · obtain ⟨n, hn⟩ : ∃ n, w.g_subjectQueue.m_iQueueIndex = n + 1 :=
      ⟨w.g_subjectQueue.m_iQueueIndex - 1, by omega⟩
    obtain ⟨pItem, hit, -⟩ := itemAt_of_readable w.g_subjectQueue h.1.1 n (by omega)
    have hit1 : qtractorSubjectQueue.itemAt w.g_subjectQueue (w.g_subjectQueue.m_iQueueIndex - 1)
        = some pItem := by
      rw [hn]
      exact hit
    rw [pop_item w b pItem h0 hit1] at hpop
    simp only [Option.some.injEq, Prod.mk.injEq] at hpop
    rw [← hpop.2]
    refine inv_popped w _ n pItem hn hit ?_ (fun t => (pop_subjects w b pItem t).2) h
    rw [setQueued_queue, notify_queue]
    simp [lowerCursor, hn]

/-- A state with an empty queue and no subject flagged satisfies the invariant. -/
theorem inv_drained (w : World) (h0 : w.g_subjectQueue.m_iQueueIndex = 0)
    (hf : ∀ t, (w.subjects t).m_bQueued = false) : QueueInv w ∧ FlagInv w := by
  have hp : pending w.g_subjectQueue = [] := by simp [pending, recordsBelow, h0]
  refine ⟨⟨⟨by omega, ?_⟩, ?_, ?_⟩, ?_⟩
  · intro k hk
    omega
  · intro p hp2
    rw [hp] at hp2
    simp at hp2
  · rw [hp]
    simp
  · intro t ht
    rw [hf t] at ht
    exact Bool.noConfusion ht

/-- Under the flag side of the invariant, clearing the flag of every subject with
a pending record leaves no subject flagged. -/
theorem flags_cleared (w : World) (h : FlagInv w) (t : SubjectId) :
    ((w.subjects t).m_bQueued &&
      !(pending w.g_subjectQueue).any (fun pItem => decide (pItem.subject = t))) = false := by
  cases hq : (w.subjects t).m_bQueued
  · rfl
  · obtain ⟨p, hp, hps⟩ := h t hq
    have : (pending w.g_subjectQueue).any (fun pItem => decide (pItem.subject = t)) = true := by
      rw [List.any_eq_true]
      exact ⟨p, hp, by simp [hps]⟩
    simp [this]

theorem inv_flush (w w1 : World) (b r : Bool)
    (hflush : qtractorSubjectQueue.flush w b = some (r, w1))
    (h : QueueInv w ∧ FlagInv w) : QueueInv w1 ∧ FlagInv w1 := by
  obtain ⟨w2, hloop, hqueue, -, -, hflag⟩ :=
    flushLoop_drains b w.g_subjectQueue.m_iQueueIndex w 0 rfl h.1.1
  have hw : w1 = w2 := by
    simp only [qtractorSubjectQueue.flush, hloop, Option.some.injEq, Prod.mk.injEq] at hflush
    exact hflush.2.symm
  subst hw
  refine inv_drained w1 (by rw [hqueue]) ?_
  intro t
  rw [hflag t]
  exact flags_cleared w h.2 t

theorem inv_reset (w w1 : World) (hreset : qtractorSubjectQueue.reset w = some w1)
    (h : QueueInv w ∧ FlagInv w) : QueueInv w1 ∧ FlagInv w1 := by
  obtain ⟨w2, hloop, hqueue, -, hsub⟩ :=
    resetLoop_drains w.g_subjectQueue.m_iQueueIndex w rfl h.1.1
  have hw : w1 = qtractorSubjectQueue.clear w2 := by
    simp only [qtractorSubjectQueue.reset, hloop, Option.map_some', Option.some.injEq] at hreset
    exact hreset.symm
  subst hw
  refine inv_drained _ rfl ?_
  intro t
  show (w2.subjects t).m_bQueued = false
  rw [hsub t]
  exact flags_cleared w h.2 t

theorem inv_reachable (w : World) (h : Reachable w) : QueueInv w ∧ FlagInv w := by
  induction h with
  | init w h0 hf => exact inv_drained w h0 hf
  | setValue w s v snd _ ih => exact inv_setValue w s v snd ih
  | pop w w1 b r _ hpop ih => exact inv_pop w w1 b r hpop ih
  | flush w w1 b r _ hflush ih => exact inv_flush w w1 b r hflush ih
  | reset w w1 _ hreset ih => exact inv_reset w w1 hreset ih

theorem recordCount_eq_count (q : qtractorSubjectQueue) (s : SubjectId) :
    recordCount q s = ((pending q).map (fun pItem => pItem.subject)).count s := by
  unfold recordCount
  induction pending q with
  | nil => rfl
  | cons a l ih =>
    by_cases h : a.subject = s
    · simp [List.filter_cons, h, ih]
    · simp [List.filter_cons, h, ih, List.count_cons]

/-- Under the invariant the queued flag of a subject tells the number of its
pending records. -/
theorem flag_counts (w : World) (h : QueueInv w ∧ FlagInv w) (s : SubjectId) :
    ((w.subjects s).m_bQueued = true ↔ recordCount w.g_subjectQueue s = 1) ∧
    ((w.subjects s).m_bQueued = false ↔ recordCount w.g_subjectQueue s = 0) := by
  obtain ⟨⟨-, hrec, hnd⟩, hflag⟩ := h
  have hle : recordCount w.g_subjectQueue s ≤ 1 := by
    rw [recordCount_eq_count]
    exact List.nodup_iff_count_le_one.mp hnd s
  have hpos : (w.subjects s).m_bQueued = true ↔ 0 < recordCount w.g_subjectQueue s := by
    rw [recordCount_eq_count, List.count_pos_iff, List.mem_map]
    constructor
    · intro hq
      obtain ⟨p, hp, hps⟩ := hflag s hq
      exact ⟨p, hp, hps⟩
    · rintro ⟨p, hp, hps⟩
      rw [← hps]
      exact hrec p hp
  constructor
  · rw [hpos]
    omega
  · cases hq : (w.subjects s).m_bQueued
    · have : ¬ 0 < recordCount w.g_subjectQueue s := by
        rw [← hpos, hq]
        simp
      simp only [true_iff]
      omega
    · have : 0 < recordCount w.g_subjectQueue s := hpos.mp hq
      simp only [false_iff, Bool.true_eq_false]
      omega

/-- C3: in every state reached from an empty queue with all subjects unqueued
by `setValue`, `pop`, `flush` and `reset` (the `update` callbacks leaving the
queue alone), for every subject: `m_bQueued` is true if and only if exactly one
record of that subject lies below the cursor, and false if and only if none
does.  In such a state every slot below the cursor can be read. -/
theorem queued_flag_invariant (w : World) (h : Reachable w) (s : SubjectId) :
    ((w.subjects s).m_bQueued = true ↔ recordCount w.g_subjectQueue s = 1) ∧
    ((w.subjects s).m_bQueued = false ↔ recordCount w.g_subjectQueue s = 0) ∧
    Readable w.g_subjectQueue :=
  ⟨(flag_counts w (inv_reachable w h) s).1, (flag_counts w (inv_reachable w h) s).2,
    (inv_reachable w h).1.1⟩

/-- C3, on an example: after `setValue(1, null)` on subject 0 of `emptyWorld`
subject 0 is queued with one record and subject 1 is unqueued with none. -/
theorem queued_flag_invariant_witness :
    Reachable (qtractorSubject.setValue emptyWorld 0 (FloatVal.num 1) none) ∧
    ((qtractorSubject.setValue emptyWorld 0 (FloatVal.num 1) none).subjects 0).m_bQueued = true ∧
    recordCount (qtractorSubject.setValue emptyWorld 0 (FloatVal.num 1) none).g_subjectQueue 0 = 1 ∧
    recordCount (qtractorSubject.setValue emptyWorld 0 (FloatVal.num 1) none).g_subjectQueue 1 = 0 :=
  have hr : Reachable (qtractorSubject.setValue emptyWorld 0 (FloatVal.num 1) none) :=
    Reachable.setValue emptyWorld 0 (FloatVal.num 1) none
      (Reachable.init emptyWorld rfl (fun _ => rfl))
  ⟨hr, by decide, (queued_flag_invariant _ hr 0).1.mp (by decide),
    (queued_flag_invariant _ hr 1).2.1.mp (by decide)⟩

/-! ## At most one pending record -/

theorem setValue_cursor_le_one (w : World) (s : SubjectId) (v : FloatVal)
    (snd : Option ObserverId)
    (h : w.g_subjectQueue.m_iQueueIndex ≤ 1 ∧
      ((w.subjects s).m_bQueued = false → w.g_subjectQueue.m_iQueueIndex = 0)) :
    (qtractorSubject.setValue w s v snd).g_subjectQueue.m_iQueueIndex ≤ 1 ∧
      (((qtractorSubject.setValue w s v snd).subjects s).m_bQueued = false →
        (qtractorSubject.setValue w s v snd).g_subjectQueue.m_iQueueIndex = 0) := by
  cases hne : FloatVal.feq v (w.subjects s).m_fValue
  · cases hq : (w.subjects s).m_bQueued
    · by_cases hfull : w.g_subjectQueue.m_iQueueIndex ≥ w.g_subjectQueue.m_iQueueSize
      · rw [setValue_full w s v snd hne hq hfull]
        have := h.2 hq
        exact ⟨by show w.g_subjectQueue.m_iQueueIndex ≤ 1; omega, fun _ => this⟩
      · rw [setValue_push w s v snd hne hq (by omega)]
        have := h.2 hq
        refine ⟨by show w.g_subjectQueue.m_iQueueIndex + 1 ≤ 1; omega, ?_⟩
        intro hcontra
        simp at hcontra
    · rw [setValue_queued w s v snd hne hq]
      refine ⟨h.1, ?_⟩
      intro hcontra
      simp [hq] at hcontra
  · rw [setValue_equal w s v snd hne]
    exact h

/-- C2: from an empty queue, after any finite sequence of `setValue` calls on one
subject (any values, any senders) with no `flush` in between, the queue holds
at most one record of that subject.  This holds whatever the flag of the
subject is at the start, in particular for `m_bQueued == false`. -/
theorem at_most_one_pending (w : World) (pSubject : SubjectId)
    (calls : List (FloatVal × Option ObserverId))
    (h0 : w.g_subjectQueue.m_iQueueIndex = 0) :
    recordCount (setValues w pSubject calls).g_subjectQueue pSubject ≤ 1 := by
  have key : ∀ (l : List (FloatVal × Option ObserverId)) (w1 : World),
      (w1.g_subjectQueue.m_iQueueIndex ≤ 1 ∧
        ((w1.subjects pSubject).m_bQueued = false → w1.g_subjectQueue.m_iQueueIndex = 0)) →
      (setValues w1 pSubject l).g_subjectQueue.m_iQueueIndex ≤ 1 := by
    intro l
    induction l with
    | nil => exact fun w1 h => h.1
    | cons c l ih =>
      intro w1 h
      exact ih _ (setValue_cursor_le_one w1 pSubject c.1 c.2 h)
  have hidx := key calls w ⟨by omega, fun _ => h0⟩
  calc recordCount (setValues w pSubject calls).g_subjectQueue pSubject
      ≤ (pending (setValues w pSubject calls).g_subjectQueue).length := by
        unfold recordCount
        exact List.length_filter_le _ _
    _ ≤ (setValues w pSubject calls).g_subjectQueue.m_iQueueIndex := recordsBelow_length_le _ _
    _ ≤ 1 := hidx

/-- C2, on an example: three writes to subject 0 of `emptyWorld` leave exactly
one record of subject 0. -/
theorem at_most_one_pending_witness :
    recordCount (setValues emptyWorld 0
        [(FloatVal.num 1, none), (FloatVal.num 2, some 7), (FloatVal.num 0, some 8)]
      ).g_subjectQueue 0 ≤ 1 ∧
    recordCount (setValues emptyWorld 0
        [(FloatVal.num 1, none), (FloatVal.num 2, some 7), (FloatVal.num 0, some 8)]
      ).g_subjectQueue 0 = 1 :=
  ⟨at_most_one_pending emptyWorld 0 _ rfl, by decide⟩

/-! ## LIFO drain order -/

theorem pushAll_spec : ∀ (l : List QueueItem) (w : World),
    Readable w.g_subjectQueue →
    w.g_subjectQueue.m_iQueueIndex + l.length ≤ w.g_subjectQueue.m_iQueueSize →
    Readable (pushAll w l).g_subjectQueue ∧
    pending (pushAll w l).g_subjectQueue = pending w.g_subjectQueue ++ l ∧
    (pushAll w l).trace = w.trace ∧
    (∀ t, sameButFlags (w.subjects t) ((pushAll w l).subjects t)) := by
  intro l
  induction l with
  | nil =>
    intro w hr _
    exact ⟨hr, by simp [pushAll], rfl, fun t => sameButFlags_refl _⟩
  | cons a l ih =>
    intro w hr hcap
    have hfree : w.g_subjectQueue.m_iQueueIndex < w.g_subjectQueue.m_iQueueSize := by
      simp only [List.length_cons] at hcap
      omega
    have hstep : pushAll w (a :: l) = pushAll (pushed w a.subject a.sender a.value) l := by
      simp only [pushAll, List.foldl_cons]
      rw [push_free w a.subject a.sender a.value (by omega)]
    have hq : (pushed w a.subject a.sender a.value).g_subjectQueue
        = pushQueue w.g_subjectQueue a := rfl
    have hr1 : Readable (pushed w a.subject a.sender a.value).g_subjectQueue := by
      rw [hq]
      exact readable_pushQueue _ _ hfree hr
    obtain ⟨h1, h2, h3, h4⟩ := ih (pushed w a.subject a.sender a.value) hr1 (by
      rw [hq]
      simp only [List.length_cons] at hcap
      show w.g_subjectQueue.m_iQueueIndex + 1 + l.length ≤ w.g_subjectQueue.m_iQueueSize
      omega)
    rw [hstep]
    refine ⟨h1, ?_, h3, ?_⟩
    · rw [h2, hq, pending_pushQueue _ _ hfree]
      simp
    · intro t
      refine sameButFlags_trans _ _ _ ?_ (h4 t)
      by_cases hts : t = a.subject
      · subst hts
        simp [pushed, sameButFlags]
      · simp [pushed, sameButFlags, Function.update_noteq hts]

theorem filter_isNotify_updateCalls (snd : Option ObserverId) (b : Bool) (l : List ObserverId) :
    (updateCalls snd b l).filter isNotify = [] ∧
    ∀ s, (updateCalls snd b l).filter (isNotifyOf s) = [] := by
  unfold updateCalls
  constructor
  · rw [List.filter_eq_nil_iff]
    intro e he
    rw [List.mem_map] at he
    obtain ⟨o, -, rfl⟩ := he
    simp [isNotify]
  · intro s
    rw [List.filter_eq_nil_iff]
    intro e he
    rw [List.mem_map] at he
    obtain ⟨o, -, rfl⟩ := he
    simp [isNotifyOf]

theorem filter_isNotify_calls (w : World) (b : Bool) (l : List QueueItem) :
    (l.flatMap (callsOf w b)).filter isNotify = l.map (notifyOf b) := by
  induction l with
  | nil => rfl
  | cons a l ih =>
    rw [List.flatMap_cons, List.filter_append, ih]
    simp [callsOf, List.filter_cons, isNotify, (filter_isNotify_updateCalls _ _ _).1, notifyOf]

theorem filter_isNotifyOf_calls (w : World) (b : Bool) (s : SubjectId) (l : List QueueItem) :
    (l.flatMap (callsOf w b)).filter (isNotifyOf s)
      = (l.filter (fun pItem => decide (pItem.subject = s))).map (notifyOf b) := by
  induction l with
  | nil => rfl
  | cons a l ih =>
    rw [List.flatMap_cons, List.filter_append, ih]
    by_cases h : a.subject = s
    · simp [callsOf, List.filter_cons, isNotifyOf, (filter_isNotify_updateCalls _ _ _).2, notifyOf,
        h]
    · simp [callsOf, List.filter_cons, isNotifyOf, (filter_isNotify_updateCalls _ _ _).2, h]

theorem filter_subject_of_nodup : ∀ (l : List QueueItem) (a : QueueItem),
    (l.map (fun pItem => pItem.subject)).Nodup → a ∈ l →
    l.filter (fun pItem => decide (pItem.subject = a.subject)) = [a] := by
  intro l
  induction l with
  | nil => intro a _ h; simp at h
  | cons x l ih =>
    intro a hnd ha
    rw [List.map_cons, List.nodup_cons] at hnd
    rcases List.mem_cons.mp ha with hax | hal
    · subst hax
      have : l.filter (fun pItem => decide (pItem.subject = a.subject)) = [] := by
        rw [List.filter_eq_nil_iff]
        intro p hp
        simp only [decide_eq_true_eq]
        intro e
        exact hnd.1 (by rw [← e]; exact List.mem_map_of_mem _ hp)
      simp [List.filter_cons, this]
    · have hne : ¬ x.subject = a.subject := by
        intro e
        exact hnd.1 (by rw [e]; exact List.mem_map_of_mem _ hal)
      simp [List.filter_cons, hne, ih a hnd.2 hal]

/-- C1: let `l` be records of distinct subjects, none of them queued, pushed
in list order onto a queue with room for all of them (a readable queue whose
pending records all have a queued subject).  Then `flush` succeeds, and the
`notify` calls it makes are those of `l` in reverse order, each with the
sender and value of its own record, followed by those of the records that were
pending before, newest first; every subject of `l` is notified exactly once. -/
theorem flush_notifies_in_lifo_order (w : World) (l : List QueueItem) (bUpdate : Bool)
    (hr : Readable w.g_subjectQueue)
    (hrec : ∀ pItem ∈ pending w.g_subjectQueue, (w.subjects pItem.subject).m_bQueued = true)
    (hnodup : (l.map (fun pItem => pItem.subject)).Nodup)
    (hun : ∀ pItem ∈ l, (w.subjects pItem.subject).m_bQueued = false)
    (hcap : w.g_subjectQueue.m_iQueueIndex + l.length ≤ w.g_subjectQueue.m_iQueueSize) :
    ∃ r w1 calls, qtractorSubject.flushQueue (pushAll w l) bUpdate = some (r, w1) ∧
      w1.trace = w.trace ++ calls ∧
      calls.filter isNotify =
        l.reverse.map (notifyOf bUpdate) ++
          (pending w.g_subjectQueue).reverse.map (notifyOf bUpdate) ∧
      ∀ pItem ∈ l, calls.filter (isNotifyOf pItem.subject) = [notifyOf bUpdate pItem] := by
  obtain ⟨hr1, hpend, htrace, hsame⟩ := pushAll_spec l w hr hcap
  obtain ⟨w1, hloop, -, htr, -, -⟩ :=
    flushLoop_drains bUpdate (pushAll w l).g_subjectQueue.m_iQueueIndex (pushAll w l) 0 rfl hr1
  have hcalls : callsOf (pushAll w l) bUpdate = callsOf w bUpdate := by
    funext pItem
    unfold callsOf
    rw [(sameButFlags_observers _ _ (hsame pItem.subject)).1]
  rw [hcalls, hpend, htrace, List.reverse_append] at htr
  refine ⟨decide (0 + (pushAll w l).g_subjectQueue.m_iQueueIndex > 0), w1, _, ?_, htr, ?_, ?_⟩
  · simp only [qtractorSubject.flushQueue, qtractorSubjectQueue.flush, hloop]
  · rw [filter_isNotify_calls, List.map_append]
  · intro pItem hp
    rw [filter_isNotifyOf_calls, List.filter_append, List.filter_reverse, List.filter_reverse,
      filter_subject_of_nodup l pItem hnodup hp]
    have hnone : (pending w.g_subjectQueue).filter
        (fun p => decide (p.subject = pItem.subject)) = [] := by
      rw [List.filter_eq_nil_iff]
      intro p hpp
      simp only [decide_eq_true_eq]
      intro e
      have h1 := hrec p hpp
      rw [e, hun pItem hp] at h1
      exact Bool.noConfusion h1
    rw [hnone]
    rfl

/-- C1, on the example: pushing A, B, C onto the empty queue of `emptyWorld` and
flushing notifies C, then B, then A, each with its own sender and value. -/
theorem flush_notifies_in_lifo_order_witness :
    ∃ r w1 calls, qtractorSubject.flushQueue (pushAll emptyWorld recordsABC) true = some (r, w1) ∧
      w1.trace = emptyWorld.trace ++ calls ∧
      calls.filter isNotify =
        [Event.notify 2 (some 8) (FloatVal.num 0) true,
         Event.notify 1 (some 7) (FloatVal.num 2) true,
         Event.notify 0 none (FloatVal.num 1) true] := by
  obtain ⟨r, w1, calls, h1, h2, h3, -⟩ :=
    flush_notifies_in_lifo_order emptyWorld recordsABC true (by decide) (by decide) (by decide)
      (by decide) (by decide)
  exact ⟨r, w1, calls, h1, h2, h3⟩

/-! ## Repeated writes -/

/-- What `flush` leaves of a state under the invariant: an empty queue, no subject
flagged, and every subject otherwise as it was but for the last broadcast
value. -/
theorem flush_of_inv (w : World) (b : Bool) (h : QueueInv w ∧ FlagInv w) :
    ∃ w1, qtractorSubject.flushQueue w b
        = some (decide (w.g_subjectQueue.m_iQueueIndex > 0), w1) ∧
      w1.g_subjectQueue = { w.g_subjectQueue with m_iQueueIndex := 0 } ∧
      w1.trace = w.trace ++ (pending w.g_subjectQueue).reverse.flatMap (callsOf w b) ∧
      (∀ t, sameButFlags (w.subjects t) (w1.subjects t)) ∧
      (∀ t, (w1.subjects t).m_bQueued = false) := by
  obtain ⟨w1, hloop, hqueue, htrace, hsame, hflag⟩ :=
    flushLoop_drains b w.g_subjectQueue.m_iQueueIndex w 0 rfl h.1.1
  refine ⟨w1, ?_, hqueue, htrace, hsame, ?_⟩
  · simp [qtractorSubject.flushQueue, qtractorSubjectQueue.flush, hloop]
  · intro t
    rw [hflag t]
    exact flags_cleared w h.2 t

/-- The value of a subject after `setValue`: the old one when the new one
compares equal to it, the conformed new one otherwise. -/
theorem setValue_value (w : World) (s : SubjectId) (v : FloatVal) (snd : Option ObserverId) :
    ((qtractorSubject.setValue w s v snd).subjects s).m_fValue =
      if FloatVal.feq v (w.subjects s).m_fValue then (w.subjects s).m_fValue
      else (w.subjects s).safeValue v := by
  cases hne : FloatVal.feq v (w.subjects s).m_fValue
  · cases hq : (w.subjects s).m_bQueued
    · by_cases hfull : w.g_subjectQueue.m_iQueueIndex ≥ w.g_subjectQueue.m_iQueueSize
      · rw [setValue_full w s v snd hne hq hfull]
        simp
      · rw [setValue_push w s v snd hne hq (by omega)]
        simp
    · rw [setValue_queued w s v snd hne hq]
      simp
  · rw [setValue_equal w s v snd hne]
    simp

/-- C6 fails: subject 0 of `emptyWorld` has range [0, 1] and value 0.  After
`setValue(2, observer 7)` its value is the clamped 1 and a record is queued;
`flush` empties the queue and clears the flag; the second `setValue(2,
observer 7)` compares the raw 2 with the stored 1, so it queues a record again
and sets the flag again. -/
theorem repeated_write_requeues :
    ∃ r w2, qtractorSubject.flushQueue
        (qtractorSubject.setValue emptyWorld 0 (FloatVal.num 2) (some 7)) true = some (r, w2) ∧
      w2.g_subjectQueue.m_iQueueIndex = 0 ∧
      (w2.subjects 0).m_bQueued = false ∧
      (w2.subjects 0).m_fValue = FloatVal.num 1 ∧
      (qtractorSubject.setValue w2 0 (FloatVal.num 2) (some 7)).g_subjectQueue.m_iQueueIndex = 1 ∧
      ((qtractorSubject.setValue w2 0 (FloatVal.num 2) (some 7)).subjects 0).m_bQueued = true := by
  have hinv := inv_setValue emptyWorld 0 (FloatVal.num 2) (some 7)
    (inv_drained emptyWorld rfl (fun _ => rfl))
  obtain ⟨w2, hflush, hqueue, -, hsame, hflag⟩ :=
    flush_of_inv (qtractorSubject.setValue emptyWorld 0 (FloatVal.num 2) (some 7)) true hinv
  have hval : (w2.subjects 0).m_fValue = FloatVal.num 1 := by
    rw [(sameButFlags_observers _ _ (hsame 0)).2]
    decide
  have hne : FloatVal.feq (FloatVal.num 2) (w2.subjects 0).m_fValue = false := by
    rw [hval]
    decide
  have hidx : w2.g_subjectQueue.m_iQueueIndex = 0 := by rw [hqueue]
  have hsize : w2.g_subjectQueue.m_iQueueSize = 4 := by rw [hqueue]; decide
  have hfree : w2.g_subjectQueue.m_iQueueIndex < w2.g_subjectQueue.m_iQueueSize := by
    rw [hidx, hsize]
    decide
  refine ⟨_, w2, hflush, hidx, hflag 0, hval, ?_, ?_⟩
  · rw [setValue_push w2 0 (FloatVal.num 2) (some 7) hne (hflag 0) hfree]
    show w2.g_subjectQueue.m_iQueueIndex + 1 = 1
    rw [hidx]
  · rw [setValue_push w2 0 (FloatVal.num 2) (some 7) hne (hflag 0) hfree]
    simp

theorem any_subject_iff (q : qtractorSubjectQueue) (s : SubjectId) :
    (pending q).any (fun pItem => decide (pItem.subject = s)) = true ↔ recordCount q s ≠ 0 := by
  unfold recordCount
  rw [List.any_eq_true]
  constructor
  · rintro ⟨p, hp, hd⟩
    have hmem : p ∈ (pending q).filter (fun pItem => decide (pItem.subject = s)) :=
      List.mem_filter.mpr ⟨hp, hd⟩
    exact fun h0 => List.ne_nil_of_mem hmem (List.length_eq_zero.mp h0)
  · intro hne
    have hnil : (pending q).filter (fun pItem => decide (pItem.subject = s)) ≠ [] :=
      fun h0 => hne (by rw [h0]; rfl)
    obtain ⟨p, hp⟩ := List.exists_mem_of_ne_nil _ hnil
    exact ⟨p, (List.mem_filter.mp hp).1, (List.mem_filter.mp hp).2⟩

/-- On a readable queue `setValue` keeps the queue readable, and a subject
that has a pending record whenever it is flagged stays so. -/
theorem setValue_keeps_record (w : World) (s : SubjectId) (v : FloatVal)
    (snd : Option ObserverId) (hr : Readable w.g_subjectQueue)
    (hs : (w.subjects s).m_bQueued = true → recordCount w.g_subjectQueue s ≠ 0) :
    Readable (qtractorSubject.setValue w s v snd).g_subjectQueue ∧
    (((qtractorSubject.setValue w s v snd).subjects s).m_bQueued = true →
      recordCount (qtractorSubject.setValue w s v snd).g_subjectQueue s ≠ 0) := by
  cases hne : FloatVal.feq v (w.subjects s).m_fValue
  · cases hq : (w.subjects s).m_bQueued
    · by_cases hfull : w.g_subjectQueue.m_iQueueIndex ≥ w.g_subjectQueue.m_iQueueSize
      · rw [setValue_full w s v snd hne hq hfull]
        refine ⟨hr, ?_⟩
        intro hcontra
        simp [hq] at hcontra
      · have hfree : w.g_subjectQueue.m_iQueueIndex < w.g_subjectQueue.m_iQueueSize := by omega
        rw [setValue_push w s v snd hne hq hfree]
        refine ⟨readable_pushQueue _ { subject := s, sender := snd, value := v } hfree hr, ?_⟩
        intro _
        rw [← any_subject_iff]
        show (pending (pushQueue w.g_subjectQueue
          { subject := s, sender := snd, value := v })).any _ = true
        rw [pending_pushQueue _ _ hfree]
        simp
    · rw [setValue_queued w s v snd hne hq]
      exact ⟨hr, fun _ => hs hq⟩
  · rw [setValue_equal w s v snd hne]
    exact ⟨hr, hs⟩

/-- C6, amended: in a state with a readable queue where the subject, if flagged
as queued, has a pending record, for a raw value `v` that `safeValue` returns
unchanged (`v == safeValue(v)`), after `setValue(v, s)` and `flush` a second
`setValue(v, s)` changes nothing: it adds no record, the queue stays empty and
the subject stays with `m_bQueued == false`. -/
theorem repeated_conformed_write_is_noop (w : World) (pSubject : SubjectId) (fValue : FloatVal)
    (pSender : Option ObserverId) (bUpdate : Bool)
    (hr : Readable w.g_subjectQueue)
    (hs : (w.subjects pSubject).m_bQueued = true → recordCount w.g_subjectQueue pSubject ≠ 0)
    (hfix : FloatVal.feq fValue ((w.subjects pSubject).safeValue fValue) = true) :
    ∃ r w2, qtractorSubject.flushQueue
        (qtractorSubject.setValue w pSubject fValue pSender) bUpdate = some (r, w2) ∧
      qtractorSubject.setValue w2 pSubject fValue pSender = w2 ∧
      w2.g_subjectQueue.m_iQueueIndex = 0 ∧
      (w2.subjects pSubject).m_bQueued = false := by
  obtain ⟨hr1, hs1⟩ := setValue_keeps_record w pSubject fValue pSender hr hs
  obtain ⟨w2, hloop, hqueue, -, hsame, hflags⟩ := flushLoop_drains bUpdate
    (qtractorSubject.setValue w pSubject fValue pSender).g_subjectQueue.m_iQueueIndex
    (qtractorSubject.setValue w pSubject fValue pSender) 0 rfl hr1
  refine ⟨decide (0 + (qtractorSubject.setValue w pSubject fValue
    pSender).g_subjectQueue.m_iQueueIndex > 0), w2, ?_, ?_, by rw [hqueue], ?_⟩
  · simp only [qtractorSubject.flushQueue, qtractorSubjectQueue.flush, hloop]
  · apply setValue_equal
    rw [(sameButFlags_observers _ _ (hsame pSubject)).2, setValue_value]
    cases hne : FloatVal.feq fValue (w.subjects pSubject).m_fValue
    · simpa using hfix
    · simpa using hne
  · rw [hflags pSubject]
    cases hq : ((qtractorSubject.setValue w pSubject fValue pSender).subjects pSubject).m_bQueued
    · rfl
    · rw [(any_subject_iff _ _).mpr (hs1 hq)]
      rfl

/-- C6 amended, on an example: writing 1, which the range [0, 1] keeps, twice to
subject 0 of `emptyWorld` with a `flush` in between. -/
theorem repeated_conformed_write_is_noop_witness :
    Readable emptyWorld.g_subjectQueue ∧
    FloatVal.feq (FloatVal.num 1) ((emptyWorld.subjects 0).safeValue (FloatVal.num 1)) = true ∧
    ∃ r w2, qtractorSubject.flushQueue
        (qtractorSubject.setValue emptyWorld 0 (FloatVal.num 1) (some 7)) true = some (r, w2) ∧
      qtractorSubject.setValue w2 0 (FloatVal.num 1) (some 7) = w2 ∧
      w2.g_subjectQueue.m_iQueueIndex = 0 ∧
      (w2.subjects 0).m_bQueued = false :=
  ⟨by decide, by decide,
    repeated_conformed_write_is_noop emptyWorld 0 (FloatVal.num 1) (some 7) true (by decide)
      (by decide) (by decide)⟩

/-! ## Self-suppression -/

theorem mem_updateCalls (snd : Option ObserverId) (b : Bool) (l : List ObserverId) (e : Event) :
    e ∈ updateCalls snd b l ↔ ∃ o ∈ l, snd ≠ some o ∧ e = Event.update o b := by
  unfold updateCalls
  rw [List.mem_map]
  constructor
  · rintro ⟨o, ho, rfl⟩
    rw [List.mem_filter] at ho
    exact ⟨o, ho.1, by simpa using ho.2, rfl⟩
  · rintro ⟨o, ho, hne, rfl⟩
    exact ⟨o, by rw [List.mem_filter]; exact ⟨ho, by simpa using hne⟩, rfl⟩

theorem count_updateCalls (snd : Option ObserverId) (b : Bool) (l : List ObserverId)
    (o : ObserverId) (hnd : l.Nodup) (ho : o ∈ l) (hne : snd ≠ some o) :
    (updateCalls snd b l).count (Event.update o b) = 1 := by
  unfold updateCalls
  have hinj : Function.Injective (fun o => Event.update o b) := by
    intro a c hac
    simpa using hac
  rw [List.count_map_of_injective _ _ hinj]
  apply List.count_eq_one_of_mem (hnd.filter _)
  rw [List.mem_filter]
  exact ⟨ho, by simpa using hne⟩

/-- C10 fails in its last sentence: in `coalescedWorld` subject 0 is already
queued with sender 8.  `setValue(2, observer 7)`, with observer 7 bound to the
subject, pushes no second record, so the following `flush` notifies with sender
8 and calls `update` on observer 7. -/
theorem flush_updates_second_sender :
    7 ∈ (coalescedWorld.subjects 0).m_observers ∧
    ∃ r w2, qtractorSubject.flushQueue
        (qtractorSubject.setValue coalescedWorld 0 (FloatVal.num 2) (some 7)) true
          = some (r, w2) ∧
      Event.update 7 true ∈ w2.trace := by
  refine ⟨by decide, ?_⟩
  have hinv : QueueInv (qtractorSubject.setValue coalescedWorld 0 (FloatVal.num 2) (some 7)) ∧
      FlagInv (qtractorSubject.setValue coalescedWorld 0 (FloatVal.num 2) (some 7)) :=
    inv_setValue _ 0 (FloatVal.num 2) (some 7)
      (inv_setValue emptyWorld 0 (FloatVal.num 1) (some 8)
        (inv_drained emptyWorld rfl (fun _ => rfl)))
  obtain ⟨w2, hflush, -, htrace, -, -⟩ := flush_of_inv _ true hinv
  refine ⟨_, w2, hflush, ?_⟩
  rw [htrace]
  decide

/-- C10, amended.  `notify(sender, value, refresh)` calls `update(refresh)` once
for every entry of the observer list that is not the sender, in list order,
and never on the sender; with a null sender every entry is updated; in a list
without repetition every observer but the sender is updated exactly once.
Consequently, when `setValue(v, O)` pushes its record (the value differs, the
subject is not queued, the queue has room) in a state whose queue is readable,
whose pending records have flagged subjects and in which no other subject
lists `O`, the following `flush` never calls `O.update` and calls
`update(refresh)` on every other observer of the subject. -/
theorem notify_skips_only_the_sender (w : World) (pSubject : SubjectId)
    (pSender : Option ObserverId) (fValue : FloatVal) (bUpdate : Bool) :
    (qtractorSubject.notify w pSubject pSender fValue bUpdate).trace =
      w.trace ++ Event.notify pSubject pSender fValue bUpdate ::
        (((w.subjects pSubject).m_observers.filter (fun o => decide (pSender ≠ some o))).map
          (fun o => Event.update o bUpdate)) ∧
    (∀ o b, pSender = some o →
      Event.update o b ∉
        (((w.subjects pSubject).m_observers.filter (fun o => decide (pSender ≠ some o))).map
          (fun o => Event.update o bUpdate))) ∧
    (pSender = none →
      (((w.subjects pSubject).m_observers.filter (fun o => decide (pSender ≠ some o))).map
          (fun o => Event.update o bUpdate))
        = (w.subjects pSubject).m_observers.map (fun o => Event.update o bUpdate)) ∧
    ((w.subjects pSubject).m_observers.Nodup →
      ∀ o ∈ (w.subjects pSubject).m_observers, pSender ≠ some o →
        (((w.subjects pSubject).m_observers.filter (fun o => decide (pSender ≠ some o))).map
          (fun o => Event.update o bUpdate)).count (Event.update o bUpdate) = 1) ∧
    (∀ (pObserver : ObserverId) (fNewValue : FloatVal) (bFlush : Bool),
      Readable w.g_subjectQueue →
      (∀ pItem ∈ pending w.g_subjectQueue, (w.subjects pItem.subject).m_bQueued = true) →
      FloatVal.feq fNewValue (w.subjects pSubject).m_fValue = false →
      (w.subjects pSubject).m_bQueued = false →
      w.g_subjectQueue.m_iQueueIndex < w.g_subjectQueue.m_iQueueSize →
      (∀ t, t ≠ pSubject → pObserver ∉ (w.subjects t).m_observers) →
      ∃ r w2 calls, qtractorSubject.flushQueue
          (qtractorSubject.setValue w pSubject fNewValue (some pObserver)) bFlush
            = some (r, w2) ∧
        w2.trace = w.trace ++ calls ∧
        (∀ b, Event.update pObserver b ∉ calls) ∧
        (∀ o ∈ (w.subjects pSubject).m_observers, o ≠ pObserver →
          Event.update o bFlush ∈ calls)) := by
  refine ⟨notify_trace w pSubject pSender fValue bUpdate, ?_, ?_, ?_, ?_⟩
  · intro o b hs hmem
    obtain ⟨o2, -, hne, he⟩ := (mem_updateCalls pSender bUpdate _ _).mp hmem
    simp only [Event.update.injEq] at he
    rw [← he.1] at hne
    exact hne hs
  · intro hs
    subst hs
    simp
  · intro hnd o ho hne
    exact count_updateCalls pSender bUpdate _ o hnd ho hne
  · intro pObserver fNewValue bFlush hr hrec hne hq hfree hbound
    have hset := setValue_push w pSubject fNewValue (some pObserver) hne hq hfree
    have hq1 : (qtractorSubject.setValue w pSubject fNewValue (some pObserver)).g_subjectQueue
        = pushQueue w.g_subjectQueue
            { subject := pSubject, sender := some pObserver, value := fNewValue } := by
      rw [hset]
      rfl
    have hobs : ∀ t, ((qtractorSubject.setValue w pSubject fNewValue (some pObserver)).subjects
        t).m_observers = (w.subjects t).m_observers := by
      intro t
      rw [hset]
      by_cases hts : t = pSubject
      · subst hts; simp
      · simp [Function.update_noteq hts]
    have htr0 : (qtractorSubject.setValue w pSubject fNewValue (some pObserver)).trace
        = w.trace := by
      rw [hset]
    have hr1 : Readable
        (qtractorSubject.setValue w pSubject fNewValue (some pObserver)).g_subjectQueue := by
      rw [hq1]
      exact readable_pushQueue _ _ hfree hr
    obtain ⟨w2, hloop, -, htrace, -, -⟩ := flushLoop_drains bFlush _ _ 0 rfl hr1
    have hcalls : callsOf (qtractorSubject.setValue w pSubject fNewValue (some pObserver)) bFlush
        = callsOf w bFlush := by
      funext pItem
      unfold callsOf
      rw [hobs]
    rw [hcalls, hq1, pending_pushQueue _ _ hfree, htr0] at htrace
    refine ⟨decide (0 + (qtractorSubject.setValue w pSubject fNewValue
      (some pObserver)).g_subjectQueue.m_iQueueIndex > 0), w2, _, ?_, htrace, ?_, ?_⟩
    · simp only [qtractorSubject.flushQueue, qtractorSubjectQueue.flush, hloop]
    · intro b hmem
      rw [List.mem_flatMap] at hmem
      obtain ⟨pItem, hp, he⟩ := hmem
      have hupd : Event.update pObserver b ∈
          updateCalls pItem.sender bFlush (w.subjects pItem.subject).m_observers := by
        unfold callsOf at he
        rcases List.mem_cons.mp he with h1 | h1
        · exact Event.noConfusion h1
        · exact h1
      obtain ⟨o2, ho2, hsnd, he2⟩ := (mem_updateCalls _ _ _ _).mp hupd
      simp only [Event.update.injEq] at he2
      rw [← he2.1] at ho2 hsnd
      rw [List.mem_reverse, List.mem_append] at hp
      rcases hp with hp | hp
      · have hqd := hrec pItem hp
        have hts : pItem.subject ≠ pSubject := by
          intro e
          rw [e, hq] at hqd
          exact Bool.noConfusion hqd
        exact hbound _ hts ho2
      · simp only [List.mem_singleton] at hp
        rw [hp] at hsnd
        exact hsnd rfl
    · intro o ho hne2
      rw [List.mem_flatMap]
      refine ⟨{ subject := pSubject, sender := some pObserver, value := fNewValue }, by simp, ?_⟩
      unfold callsOf
      apply List.mem_cons_of_mem
      rw [mem_updateCalls]
      exact ⟨o, ho, by simpa using fun e => hne2 e.symm, rfl⟩

/-- C10 amended, on an example: `notify` of subject 0 of `emptyWorld`, whose
observers are 7 and 8, with sender 7 updates observer 8 only, and after
`setValue(2, observer 7)` the `flush` never updates observer 7 and updates
observer 8. -/
theorem notify_skips_only_the_sender_witness :
    (qtractorSubject.notify emptyWorld 0 (some 7) (FloatVal.num 2) true).trace
      = [Event.notify 0 (some 7) (FloatVal.num 2) true, Event.update 8 true] ∧
    ∃ r w2 calls, qtractorSubject.flushQueue
        (qtractorSubject.setValue emptyWorld 0 (FloatVal.num 2) (some 7)) true = some (r, w2) ∧
      w2.trace = emptyWorld.trace ++ calls ∧
      (∀ b, Event.update 7 b ∉ calls) ∧
      Event.update 8 true ∈ calls := by
  have h := notify_skips_only_the_sender emptyWorld 0 (some 7) (FloatVal.num 2) true
  refine ⟨by rw [h.1]; decide, ?_⟩
  obtain ⟨r, w2, calls, h1, h2, h3, h4⟩ := h.2.2.2.2 7 (FloatVal.num 2) true (by decide)
    (by decide) (by decide) (by decide) (by decide)
    (fun (t : Nat) (ht : t ≠ 0) (hmem : (7 : Nat) ∈ [10 * t + 7, 10 * t + 8]) => by
      have h8 : (7 : Nat) = 10 * t + 7 ∨ (7 : Nat) = 10 * t + 8 := by simpa using hmem
      omega)
  exact ⟨r, w2, calls, h1, h2, h3, h4 8 (by decide) (by decide)⟩

/-! ## notify and the last broadcast value -/

theorem updateCalls_eq_nil (snd : Option ObserverId) (b : Bool) (l : List ObserverId) :
    updateCalls snd b l = [] ↔ ∀ o ∈ l, snd = some o := by
  unfold updateCalls
  rw [List.map_eq_nil_iff, List.filter_eq_nil_iff]
  constructor
  · intro h o ho
    simpa using h o ho
  · intro h o ho
    simpa using h o ho

/-- C19: `notify(sender, value, refresh)` on a subject whose observer list is
empty or holds only the sender leaves `m_fLastValue` as it was and calls no
`update`; on a subject with an observer other than the sender it leaves
`m_fLastValue == value`.  In every case the subject's value, previous value,
queued flag and observer list, every other subject and the queue are as they
were. -/
theorem notify_writes_last_value_on_update (w : World) (pSubject : SubjectId)
    (pSender : Option ObserverId) (fValue : FloatVal) (bUpdate : Bool) :
    ((∀ o ∈ (w.subjects pSubject).m_observers, pSender = some o) →
      ((qtractorSubject.notify w pSubject pSender fValue bUpdate).subjects pSubject).m_fLastValue
        = (w.subjects pSubject).m_fLastValue ∧
      (qtractorSubject.notify w pSubject pSender fValue bUpdate).trace
        = w.trace ++ [Event.notify pSubject pSender fValue bUpdate]) ∧
    ((∃ o ∈ (w.subjects pSubject).m_observers, pSender ≠ some o) →
      ((qtractorSubject.notify w pSubject pSender fValue bUpdate).subjects pSubject).m_fLastValue
        = fValue) ∧
    ((qtractorSubject.notify w pSubject pSender fValue bUpdate).subjects pSubject).m_fValue
      = (w.subjects pSubject).m_fValue ∧
    ((qtractorSubject.notify w pSubject pSender fValue bUpdate).subjects pSubject).m_fPrevValue
      = (w.subjects pSubject).m_fPrevValue ∧
    ((qtractorSubject.notify w pSubject pSender fValue bUpdate).subjects pSubject).m_bQueued
      = (w.subjects pSubject).m_bQueued ∧
    ((qtractorSubject.notify w pSubject pSender fValue bUpdate).subjects pSubject).m_observers
      = (w.subjects pSubject).m_observers ∧
    (∀ t, t ≠ pSubject →
      (qtractorSubject.notify w pSubject pSender fValue bUpdate).subjects t = w.subjects t) ∧
    (qtractorSubject.notify w pSubject pSender fValue bUpdate).g_subjectQueue
      = w.g_subjectQueue := by
  refine ⟨?_, ?_, ?_, ?_, ?_, ?_, ?_, notify_queue w pSubject pSender fValue bUpdate⟩
  · intro h
    have hnil := (updateCalls_eq_nil pSender bUpdate _).mpr h
    refine ⟨?_, ?_⟩
    · rw [notify_same]
      simp [hnil]
    · rw [notify_trace, hnil]
  · rintro ⟨o, ho, hne⟩
    have hnn : updateCalls pSender bUpdate (w.subjects pSubject).m_observers ≠ [] := by
      intro hnil
      exact hne ((updateCalls_eq_nil pSender bUpdate _).mp hnil o ho)
    rw [notify_same]
    simp [hnn]
  · rw [notify_same]
  · rw [notify_same]
  · rw [notify_same]
  · rw [notify_same]
  · intro t ht
    exact notify_other w pSubject t pSender fValue bUpdate ht

/-- C19, on examples: `notify` with value 1 on subject 0 of `freshWorld`, which
has no observer, keeps the last broadcast value 0 and calls no `update`; on
subject 0 of `emptyWorld`, with observers 7 and 8 and sender 7, it leaves the
last broadcast value 1. -/
theorem notify_writes_last_value_on_update_witness :
    ((qtractorSubject.notify freshWorld 0 (some 7) (FloatVal.num 1) true).subjects 0).m_fLastValue
      = FloatVal.num 0 ∧
    (qtractorSubject.notify freshWorld 0 (some 7) (FloatVal.num 1) true).trace
      = [Event.notify 0 (some 7) (FloatVal.num 1) true] ∧
    ((qtractorSubject.notify emptyWorld 0 (some 7) (FloatVal.num 1) true).subjects 0).m_fLastValue
      = FloatVal.num 1 :=
  ⟨((notify_writes_last_value_on_update freshWorld 0 (some 7) (FloatVal.num 1) true).1
      (by decide)).1,
   ((notify_writes_last_value_on_update freshWorld 0 (some 7) (FloatVal.num 1) true).1
      (by decide)).2,
   (notify_writes_last_value_on_update emptyWorld 0 (some 7) (FloatVal.num 1) true).2.1
      ⟨8, by decide, by decide⟩⟩

/-! ## reset and clear -/

/-- C13: on a queue whose pending slots hold records, `reset()` succeeds and
leaves the queue empty (cursor 0), with `m_bQueued == false` on every subject
that had a pending record; it makes no call (no `notify`, no `update`), and
every subject keeps everything but the flag: value, previous value and last
broadcast value.  Capacity and slots stay, and a subject without a pending
record keeps its flag too. -/
theorem reset_drains_without_notifying (w : World) (hr : Readable w.g_subjectQueue) :
    ∃ w1, qtractorSubject.resetQueue w = some w1 ∧
      w1.g_subjectQueue.m_iQueueIndex = 0 ∧
      qtractorSubjectQueue.isEmpty w1.g_subjectQueue = true ∧
      (∀ pItem ∈ pending w.g_subjectQueue, (w1.subjects pItem.subject).m_bQueued = false) ∧
      w1.trace = w.trace ∧
      (∀ t, (w1.subjects t).m_fValue = (w.subjects t).m_fValue ∧
        (w1.subjects t).m_fPrevValue = (w.subjects t).m_fPrevValue ∧
        (w1.subjects t).m_fLastValue = (w.subjects t).m_fLastValue ∧
        w1.subjects t = { w.subjects t with m_bQueued := (w1.subjects t).m_bQueued }) ∧
      (∀ t, (∀ pItem ∈ pending w.g_subjectQueue, pItem.subject ≠ t) →
        w1.subjects t = w.subjects t) ∧
      w1.g_subjectQueue.m_iQueueSize = w.g_subjectQueue.m_iQueueSize ∧
      w1.g_subjectQueue.m_pQueueItems = w.g_subjectQueue.m_pQueueItems := by
  obtain ⟨w2, hloop, hqueue, htrace, hsub⟩ :=
    resetLoop_drains w.g_subjectQueue.m_iQueueIndex w rfl hr
  refine ⟨qtractorSubjectQueue.clear w2, ?_, rfl, rfl, ?_, htrace, ?_, ?_, ?_, ?_⟩
  · simp [qtractorSubject.resetQueue, qtractorSubjectQueue.reset, hloop]
  · intro pItem hp
    show (w2.subjects pItem.subject).m_bQueued = false
    rw [hsub]
    have hany : (pending w.g_subjectQueue).any
        (fun p => decide (p.subject = pItem.subject)) = true := by
      rw [List.any_eq_true]
      exact ⟨pItem, hp, by simp⟩
    simp [hany]
  · intro t
    show (w2.subjects t).m_fValue = _ ∧ (w2.subjects t).m_fPrevValue = _ ∧
      (w2.subjects t).m_fLastValue = _ ∧
      w2.subjects t = { w.subjects t with m_bQueued := (w2.subjects t).m_bQueued }
    rw [hsub]
    exact ⟨rfl, rfl, rfl, rfl⟩
  · intro t ht
    show w2.subjects t = w.subjects t
    rw [hsub]
    have hany : (pending w.g_subjectQueue).any (fun p => decide (p.subject = t)) = false := by
      rw [List.any_eq_false]
      intro p hp
      simpa using ht p hp
    simp [hany]
  · show w2.g_subjectQueue.m_iQueueSize = _
    rw [hqueue]
  · show w2.g_subjectQueue.m_pQueueItems = _
    rw [hqueue]

/-- C13, on an example: `reset` on `fullWorld`, whose queue holds one record of
the queued subject 1, empties the queue, clears the flag of subject 1 and
makes no call. -/
theorem reset_drains_without_notifying_witness :
    ∃ w1, qtractorSubject.resetQueue fullWorld = some w1 ∧
      w1.g_subjectQueue.m_iQueueIndex = 0 ∧
      (w1.subjects 1).m_bQueued = false ∧
      w1.trace = [] := by
  obtain ⟨w1, h1, h2, -, h4, h5, -⟩ := reset_drains_without_notifying fullWorld (by decide)
  exact ⟨w1, h1, h2,
    h4 { subject := 1, sender := some 17, value := FloatVal.num 1 } (by decide), h5⟩

/-- C14: `clear()` sets the cursor to 0 and writes nothing else: the capacity,
every slot, every subject (queued flag, value, previous value, last broadcast
value) and the trace are as they were.  So a subject that was flagged as queued
is still flagged although the queue is empty, and its next `setValue` with a
different value leaves the queue as it is: no record is pushed. -/
theorem clear_touches_only_the_cursor (w : World) :
    (qtractorSubject.clearQueue w).g_subjectQueue.m_iQueueIndex = 0 ∧
    (qtractorSubject.clearQueue w).g_subjectQueue.m_iQueueSize = w.g_subjectQueue.m_iQueueSize ∧
    (qtractorSubject.clearQueue w).g_subjectQueue.m_pQueueItems
      = w.g_subjectQueue.m_pQueueItems ∧
    (qtractorSubject.clearQueue w).subjects = w.subjects ∧
    (qtractorSubject.clearQueue w).trace = w.trace ∧
    (∀ s, (w.subjects s).m_bQueued = true →
      ((qtractorSubject.clearQueue w).subjects s).m_bQueued = true ∧
      qtractorSubjectQueue.isEmpty (qtractorSubject.clearQueue w).g_subjectQueue = true ∧
      ∀ v snd, FloatVal.feq v (w.subjects s).m_fValue = false →
        (qtractorSubject.setValue (qtractorSubject.clearQueue w) s v snd).g_subjectQueue
          = (qtractorSubject.clearQueue w).g_subjectQueue ∧
        ((qtractorSubject.setValue (qtractorSubject.clearQueue w) s v snd).subjects s).m_bQueued
          = true) := by
  refine ⟨rfl, rfl, rfl, rfl, rfl, ?_⟩
  intro s hq
  refine ⟨hq, rfl, ?_⟩
  intro v snd hne
  have hq2 : ((qtractorSubject.clearQueue w).subjects s).m_bQueued = true := hq
  have hne2 : FloatVal.feq v ((qtractorSubject.clearQueue w).subjects s).m_fValue = false := hne
  rw [setValue_queued _ s v snd hne2 hq2]
  refine ⟨rfl, ?_⟩
  simp
  exact hq

/-- C14, on an example: after `clear` on `fullWorld` the queue is empty, subject
1 is still flagged, and writing 1 to it pushes nothing. -/
theorem clear_touches_only_the_cursor_witness :
    (qtractorSubject.clearQueue fullWorld).g_subjectQueue.m_iQueueIndex = 0 ∧
    ((qtractorSubject.clearQueue fullWorld).subjects 1).m_bQueued = true ∧
    (qtractorSubject.setValue (qtractorSubject.clearQueue fullWorld) 1 (FloatVal.num 1)
      none).g_subjectQueue.m_iQueueIndex = 0 := by
  have h := clear_touches_only_the_cursor fullWorld
  have h1 := (h.2.2.2.2.2 1 (by decide)).2.2 (FloatVal.num 1) none (by decide)
  refine ⟨h.1, (h.2.2.2.2.2 1 (by decide)).1, ?_⟩
  rw [h1.1]
  exact h.1

/-! ## Two writes before a flush -/

/-- The loop of `flush` leaves alone a subject that has no pending record. -/
theorem flushLoop_untouched (b : Bool) (s : SubjectId) : ∀ (n : Nat) (w : World) (i : Nat),
    w.g_subjectQueue.m_iQueueIndex = n → Readable w.g_subjectQueue →
    (∀ pItem ∈ pending w.g_subjectQueue, pItem.subject ≠ s) →
    ∀ r w1, qtractorSubjectQueue.flushLoop w b i = some (r, w1) →
      w1.subjects s = w.subjects s := by
  intro n
  induction n with
  | zero =>
    intro w i h0 _ _ r w1 hloop
    rw [flushLoop_pop_false w w b i (pop_empty w b h0)] at hloop
    simp only [Option.some.injEq, Prod.mk.injEq] at hloop
    rw [← hloop.2]
  | succ n ih =>
    intro w i hn hr hnone r w1 hloop
    obtain ⟨pItem, hit, -⟩ := itemAt_of_readable w.g_subjectQueue hr n (by omega)
    have h0 : w.g_subjectQueue.m_iQueueIndex ≠ 0 := by omega
    have hit1 : qtractorSubjectQueue.itemAt w.g_subjectQueue (w.g_subjectQueue.m_iQueueIndex - 1)
        = some pItem := by
      rw [hn]
      exact hit
    have hpend := pending_lower w.g_subjectQueue n pItem hn hit
    have hq1 : (qtractorSubject.setQueued
        (qtractorSubject.notify (lowerCursor w) pItem.subject pItem.sender pItem.value b)
        pItem.subject false).g_subjectQueue
        = { w.g_subjectQueue with m_iQueueIndex := n } := by
      rw [setQueued_queue, notify_queue]
      simp [lowerCursor, hn]
    have hne : s ≠ pItem.subject := by
      intro e
      exact hnone pItem (by rw [hpend]; simp) e.symm
    rw [flushLoop_pop_true w _ b i (pop_item w b pItem h0 hit1)] at hloop
    rw [ih _ (i + 1) (by rw [hq1]) (by rw [hq1]; exact readable_lower _ n hn hr)
      (by
        intro p hp
        rw [hq1] at hp
        exact hnone p (by rw [hpend]; exact List.mem_append_left _ hp)) r w1 hloop,
      setQueued_other _ _ _ _ hne, notify_other _ _ _ _ _ _ hne]
    rfl

/-- C11 fails: on subject 0 of `emptyWorld` (value 0, observers 7 and 8),
`setValue(1, observer 7)` queues the record `(0, 7, 1)` and `setValue(0,
observer 8)` pushes nothing, the subject being queued.  `flush` then notifies
with sender 7 and value 1, the first write, and updates observer 8: the last
broadcast value is 1 while the value of the subject is 0, the latest write. -/
theorem flush_delivers_first_write :
    ∃ r w2, qtractorSubject.flushQueue
        (setValues emptyWorld 0 [(FloatVal.num 1, some 7), (FloatVal.num 0, some 8)]) true
          = some (r, w2) ∧
      w2.trace = [Event.notify 0 (some 7) (FloatVal.num 1) true, Event.update 8 true] ∧
      (w2.subjects 0).m_fLastValue = FloatVal.num 1 ∧
      (w2.subjects 0).m_fValue = FloatVal.num 0 := by
  have hpop := pop_item
    (setValues emptyWorld 0 [(FloatVal.num 1, some 7), (FloatVal.num 0, some 8)]) true
    { subject := 0, sender := some 7, value := FloatVal.num 1 } (by decide) (by decide)
  have hloop := flushLoop_pop_true _ _ true 0 hpop
  rw [flushLoop_pop_false _ _ true (0 + 1) (pop_empty _ true (by decide))] at hloop
  refine ⟨true, qtractorSubject.setQueued
    (qtractorSubject.notify
      (lowerCursor (setValues emptyWorld 0 [(FloatVal.num 1, some 7), (FloatVal.num 0, some 8)]))
      0 (some 7) (FloatVal.num 1) true) 0 false, ?_, ?_, ?_, ?_⟩
  · simp only [qtractorSubject.flushQueue, qtractorSubjectQueue.flush, hloop]
    rfl
  · decide
  · decide
  · decide

/-- Two writes to an unqueued subject with room in the queue, each different
from the value it meets: one record, of the first write; the value of the
second write, conformed; the previous value saved by the first write. -/
theorem setValue_twice (w : World) (s : SubjectId) (v1 v2 : FloatVal)
    (s1 s2 : Option ObserverId)
    (hq : (w.subjects s).m_bQueued = false)
    (hfree : w.g_subjectQueue.m_iQueueIndex < w.g_subjectQueue.m_iQueueSize)
    (h1 : FloatVal.feq v1 (w.subjects s).m_fValue = false)
    (h2 : FloatVal.feq v2 ((w.subjects s).safeValue v1) = false) :
    qtractorSubject.setValue (qtractorSubject.setValue w s v1 s1) s v2 s2 =
      { subjects := Function.update w.subjects s
          { w.subjects s with
            m_fValue := (w.subjects s).safeValue v2,
            m_fPrevValue := (w.subjects s).m_fValue,
            m_bQueued := true },
        g_subjectQueue := pushQueue w.g_subjectQueue { subject := s, sender := s1, value := v1 },
        trace := w.trace } := by
  rw [setValue_push w s v1 s1 h1 hq hfree]
  rw [setValue_queued _ s v2 s2 (by simpa using h2) (by simp)]
  simp [qtractorSubject.safeValue, pushQueue]

/-- C11, amended: after `setValue(v1, s1)` and `setValue(v2, s2)` on an unqueued
subject with no `flush` in between (each value different from the value it
meets, room in the queue, a readable queue whose pending records have flagged
subjects), the following `flush` notifies the subject exactly once, with the
value and sender of the first write, `v1` and `s1`; the last broadcast value
is `v1` when an observer other than `s1` is bound, while the value of the
subject is the conformed latest write, `safeValue(v2)`. -/
theorem flush_delivers_oldest_pending_write (w : World) (pSubject : SubjectId)
    (v1 v2 : FloatVal) (s1 s2 : Option ObserverId) (bUpdate : Bool)
    (hr : Readable w.g_subjectQueue)
    (hrec : ∀ pItem ∈ pending w.g_subjectQueue, (w.subjects pItem.subject).m_bQueued = true)
    (hq : (w.subjects pSubject).m_bQueued = false)
    (hfree : w.g_subjectQueue.m_iQueueIndex < w.g_subjectQueue.m_iQueueSize)
    (h1 : FloatVal.feq v1 (w.subjects pSubject).m_fValue = false)
    (h2 : FloatVal.feq v2 ((w.subjects pSubject).safeValue v1) = false) :
    ∃ r w2 calls, qtractorSubject.flushQueue
        (qtractorSubject.setValue (qtractorSubject.setValue w pSubject v1 s1) pSubject v2 s2)
        bUpdate = some (r, w2) ∧
      w2.trace = w.trace ++ calls ∧
      calls.filter (isNotifyOf pSubject) = [Event.notify pSubject s1 v1 bUpdate] ∧
      (w2.subjects pSubject).m_fValue = (w.subjects pSubject).safeValue v2 ∧
      ((∃ o ∈ (w.subjects pSubject).m_observers, s1 ≠ some o) →
        (w2.subjects pSubject).m_fLastValue = v1) ∧
      (w2.subjects pSubject).m_bQueued = false := by
  have hset := setValue_twice w pSubject v1 v2 s1 s2 hq hfree h1 h2
  generalize qtractorSubject.setValue (qtractorSubject.setValue w pSubject v1 s1)
    pSubject v2 s2 = wB at hset ⊢
  have hBq : wB.g_subjectQueue = pushQueue w.g_subjectQueue
      { subject := pSubject, sender := s1, value := v1 } := by rw [hset]
  have hBt : wB.trace = w.trace := by rw [hset]
  have hBs : wB.subjects pSubject = { w.subjects pSubject with
      m_fValue := (w.subjects pSubject).safeValue v2,
      m_fPrevValue := (w.subjects pSubject).m_fValue,
      m_bQueued := true } := by
    rw [hset]
    simp
  have hBr : Readable wB.g_subjectQueue := by
    rw [hBq]
    exact readable_pushQueue _ _ hfree hr
  have hBp : pending wB.g_subjectQueue = pending w.g_subjectQueue ++
      [{ subject := pSubject, sender := s1, value := v1 }] := by
    rw [hBq]
    exact pending_pushQueue _ _ hfree
  have hnone : ∀ pItem ∈ pending w.g_subjectQueue, pItem.subject ≠ pSubject := by
    intro p hp e
    have := hrec p hp
    rw [e, hq] at this
    exact Bool.noConfusion this
  -- the whole flush
  obtain ⟨w2, hloop, -, htrace, hsame, hflag⟩ :=
    flushLoop_drains bUpdate wB.g_subjectQueue.m_iQueueIndex wB 0 rfl hBr
  -- its first pop
  have hidx : wB.g_subjectQueue.m_iQueueIndex = w.g_subjectQueue.m_iQueueIndex + 1 := by
    rw [hBq]
    rfl
  have hit : qtractorSubjectQueue.itemAt wB.g_subjectQueue (wB.g_subjectQueue.m_iQueueIndex - 1)
      = some { subject := pSubject, sender := s1, value := v1 } := by
    rw [hidx, hBq]
    simp [qtractorSubjectQueue.itemAt, pushQueue, hfree]
  have hpop := pop_item wB bUpdate { subject := pSubject, sender := s1, value := v1 }
    (by omega) hit
  have hloop2 := flushLoop_pop_true wB _ bUpdate 0 hpop
  rw [hloop] at hloop2
  have hCq : (qtractorSubject.setQueued
      (qtractorSubject.notify (lowerCursor wB) pSubject s1 v1 bUpdate)
      pSubject false).g_subjectQueue
      = { wB.g_subjectQueue with m_iQueueIndex := w.g_subjectQueue.m_iQueueIndex } := by
    rw [setQueued_queue, notify_queue]
    simp [lowerCursor, hidx]
  have hCp : pending { wB.g_subjectQueue with m_iQueueIndex := w.g_subjectQueue.m_iQueueIndex }
      = pending w.g_subjectQueue := by
    have h3 := pending_lower wB.g_subjectQueue w.g_subjectQueue.m_iQueueIndex
      { subject := pSubject, sender := s1, value := v1 } hidx (by rw [← hit, hidx]; rfl)
    rw [hBp] at h3
    exact (List.append_cancel_right h3).symm
  have hkeep := flushLoop_untouched bUpdate pSubject w.g_subjectQueue.m_iQueueIndex
    (qtractorSubject.setQueued
      (qtractorSubject.notify (lowerCursor wB) pSubject s1 v1 bUpdate) pSubject false)
    (0 + 1) (by rw [hCq]) (by rw [hCq]; exact readable_lower _ _ hidx hBr)
    (by rw [hCq, hCp]; exact hnone) _ w2 hloop2.symm
  refine ⟨decide (0 + wB.g_subjectQueue.m_iQueueIndex > 0), w2,
    (pending wB.g_subjectQueue).reverse.flatMap (callsOf wB bUpdate), ?_, ?_, ?_, ?_, ?_, ?_⟩
  · simp only [qtractorSubject.flushQueue, qtractorSubjectQueue.flush, hloop]
  · rw [htrace, hBt]
  · rw [filter_isNotifyOf_calls, List.filter_reverse, hBp, List.filter_append]
    have hnil : (pending w.g_subjectQueue).filter (fun p => decide (p.subject = pSubject))
        = [] := by
      rw [List.filter_eq_nil_iff]
      intro p hp
      simpa using hnone p hp
    rw [hnil]
    simp [notifyOf]
  · rw [(sameButFlags_observers _ _ (hsame pSubject)).2, hBs]
  · rintro ⟨o, ho, hne⟩
    have hobs : ((lowerCursor wB).subjects pSubject).m_observers
        = (w.subjects pSubject).m_observers := by
      show (wB.subjects pSubject).m_observers = _
      rw [hBs]
    have hnn : updateCalls s1 bUpdate ((lowerCursor wB).subjects pSubject).m_observers ≠ [] := by
      rw [hobs]
      intro hnil
      exact hne ((updateCalls_eq_nil s1 bUpdate _).mp hnil o ho)
    rw [hkeep, setQueued_same, notify_same]
    simp [hnn]
  · rw [hkeep, setQueued_same]

/-- C11 amended, on an example: writing 1 from observer 7 and then 0 from
observer 8 to subject 0 of `emptyWorld`; `flush` notifies once, with sender 7
and value 1. -/
theorem flush_delivers_oldest_pending_write_witness :
    ∃ r w2 calls, qtractorSubject.flushQueue
        (qtractorSubject.setValue
          (qtractorSubject.setValue emptyWorld 0 (FloatVal.num 1) (some 7))
          0 (FloatVal.num 0) (some 8)) true = some (r, w2) ∧
      w2.trace = emptyWorld.trace ++ calls ∧
      calls.filter (isNotifyOf 0) = [Event.notify 0 (some 7) (FloatVal.num 1) true] ∧
      (w2.subjects 0).m_fValue = FloatVal.num 0 ∧
      (w2.subjects 0).m_fLastValue = FloatVal.num 1 := by
  obtain ⟨r, w2, calls, h1, h2, h3, h4, h5, -⟩ :=
    flush_delivers_oldest_pending_write emptyWorld 0 (FloatVal.num 1) (FloatVal.num 0)
      (some 7) (some 8) true (by decide) (by decide) (by decide) (by decide) (by decide)
      (by decide)
  refine ⟨r, w2, calls, h1, h2, h3, ?_, h5 ⟨8, by decide, by decide⟩⟩
  rw [h4]
  decide

/-! ## resize -/

theorem recordsBelow_length (q : qtractorSubjectQueue) : ∀ (c : Nat),
    (∀ k, k < c → (qtractorSubjectQueue.itemAt q k).isSome = true) →
    (recordsBelow q c).length = c := by
  intro c
  induction c with
  | zero => intro _; rfl
  | succ c ih =>
    intro h
    have hc := h c (by omega)
    rw [Option.isSome_iff_exists] at hc
    obtain ⟨pItem, hp⟩ := hc
    rw [recordsBelow_succ, hp, List.length_append, ih (fun k hk => h k (by omega))]
    rfl

theorem recordsBelow_take (q : qtractorSubjectQueue) : ∀ (c : Nat),
    (∀ k, k < c → (qtractorSubjectQueue.itemAt q k).isSome = true) →
    ∀ m, m ≤ c → (recordsBelow q c).take m = recordsBelow q m := by
  intro c
  induction c with
  | zero =>
    intro _ m hm
    have : m = 0 := by omega
    subst this
    rfl
  | succ c ih =>
    intro h m hm
    have hlen := recordsBelow_length q c (fun k hk => h k (by omega))
    by_cases hmc : m ≤ c
    · rw [recordsBelow_succ, List.take_append_of_le_length (by rw [hlen]; exact hmc)]
      exact ih (fun k hk => h k (by omega)) m hmc
    · have : m = c + 1 := by omega
      subst this
      apply List.take_of_length_le
      rw [recordsBelow_length q (c + 1) h]

theorem itemAt_isSome_of_readable (q : qtractorSubjectQueue) (hr : Readable q) (k : Nat)
    (hk : k < q.m_iQueueIndex) : (qtractorSubjectQueue.itemAt q k).isSome = true := by
  obtain ⟨pItem, hp, -⟩ := itemAt_of_readable q hr k hk
  rw [hp]
  rfl

/-- C12 fails: the queue of `emptyWorld` with the records A, B, C pushed in that
order is resized to capacity 2.  The two slots of the new array hold A and B,
the two oldest records, not B and C, the two pushed last. -/
theorem resize_drops_newest_records :
    pending (pushAll emptyWorld recordsABC).g_subjectQueue = recordsABC ∧
    ∃ w1, qtractorSubjectQueue.resize (pushAll emptyWorld recordsABC) 2 = some w1 ∧
      w1.g_subjectQueue.m_iQueueSize = 2 ∧
      recordsBelow w1.g_subjectQueue 2 =
        [{ subject := 0, sender := none, value := FloatVal.num 1 },
         { subject := 1, sender := some 7, value := FloatVal.num 2 }] :=
  ⟨by decide, _, rfl, by decide, by decide⟩

/-- C12, amended: on a queue with `c` pending records (cursor `c <= capacity`,
pending slots written), `resize(n)` succeeds, the capacity becomes `n`, and
the first `min(c, n)` slots of the new array hold the `min(c, n)` oldest
records of the old queue in their order.  When `n >= c` the cursor stays `c`,
so the queue holds all `c` records in their order.  No subject and no call is
touched. -/
theorem resize_keeps_oldest_records (w : World) (iNewSize : Nat)
    (hr : Readable w.g_subjectQueue) :
    ∃ w1, qtractorSubjectQueue.resize w iNewSize = some w1 ∧
      w1.g_subjectQueue.m_iQueueSize = iNewSize ∧
      recordsBelow w1.g_subjectQueue (min w.g_subjectQueue.m_iQueueIndex iNewSize)
        = (pending w.g_subjectQueue).take (min w.g_subjectQueue.m_iQueueIndex iNewSize) ∧
      (w.g_subjectQueue.m_iQueueIndex ≤ iNewSize →
        w1.g_subjectQueue.m_iQueueIndex = w.g_subjectQueue.m_iQueueIndex ∧
        pending w1.g_subjectQueue = pending w.g_subjectQueue ∧
        Readable w1.g_subjectQueue) ∧
      w1.subjects = w.subjects ∧
      w1.trace = w.trace := by
  have hle := hr.1
  have hmin : (if w.g_subjectQueue.m_iQueueIndex > iNewSize then iNewSize
      else w.g_subjectQueue.m_iQueueIndex) = min w.g_subjectQueue.m_iQueueIndex iNewSize := by
    split <;> omega
  have hok : ¬ (min w.g_subjectQueue.m_iQueueIndex iNewSize > w.g_subjectQueue.m_iQueueSize) := by
    omega
  have hres : qtractorSubjectQueue.resize w iNewSize =
      some { subjects := w.subjects,
             g_subjectQueue :=
               { m_iQueueIndex := w.g_subjectQueue.m_iQueueIndex,
                 m_iQueueSize := iNewSize,
                 m_pQueueItems := fun k =>
                   if k < min w.g_subjectQueue.m_iQueueIndex iNewSize
                   then w.g_subjectQueue.m_pQueueItems k else none },
             trace := w.trace } := by
    unfold qtractorSubjectQueue.resize
    simp only [hmin, hok, if_false]
  have hitem : ∀ k, k < min w.g_subjectQueue.m_iQueueIndex iNewSize →
      qtractorSubjectQueue.itemAt
        { m_iQueueIndex := w.g_subjectQueue.m_iQueueIndex,
          m_iQueueSize := iNewSize,
          m_pQueueItems := fun k =>
            if k < min w.g_subjectQueue.m_iQueueIndex iNewSize
            then w.g_subjectQueue.m_pQueueItems k else none } k
        = qtractorSubjectQueue.itemAt w.g_subjectQueue k := by
    intro k hk
    have h1 : k < iNewSize := by omega
    have h2 : k < w.g_subjectQueue.m_iQueueSize := by omega
    simp [qtractorSubjectQueue.itemAt, h1, h2, hk]
  refine ⟨_, hres, rfl, ?_, ?_, rfl, rfl⟩
  · rw [recordsBelow_congr _ _ _ hitem]
    exact (recordsBelow_take w.g_subjectQueue w.g_subjectQueue.m_iQueueIndex
      (itemAt_isSome_of_readable _ hr) _ (by omega)).symm
  · intro hfit
    have hm : min w.g_subjectQueue.m_iQueueIndex iNewSize = w.g_subjectQueue.m_iQueueIndex := by
      omega
    refine ⟨rfl, ?_, ?_, ?_⟩
    · unfold pending
      exact recordsBelow_congr _ _ _ (fun k hk => hitem k (by rw [hm]; exact hk))
    · exact hfit
    · intro k hk
      have hk2 : k < w.g_subjectQueue.m_iQueueIndex := hk
      have := hr.2 k hk2
      simp [hm, hk2, this]

/-- C12 amended, on an example: the queue of `emptyWorld` with records A, B, C
resized to capacity 2 holds A and B in its two slots; resized to capacity 8
it holds A, B, C as before. -/
theorem resize_keeps_oldest_records_witness :
    Readable (pushAll emptyWorld recordsABC).g_subjectQueue ∧
    (∃ w1, qtractorSubjectQueue.resize (pushAll emptyWorld recordsABC) 2 = some w1 ∧
      w1.g_subjectQueue.m_iQueueSize = 2 ∧
      recordsBelow w1.g_subjectQueue 2 = recordsABC.take 2) ∧
    (∃ w1, qtractorSubjectQueue.resize (pushAll emptyWorld recordsABC) 8 = some w1 ∧
      w1.g_subjectQueue.m_iQueueSize = 8 ∧
      pending w1.g_subjectQueue = recordsABC) := by
  refine ⟨by decide, ?_, ?_⟩
  · obtain ⟨w1, h1, h2, h3, -⟩ :=
      resize_keeps_oldest_records (pushAll emptyWorld recordsABC) 2 (by decide)
    exact ⟨w1, h1, h2, h3⟩
  · obtain ⟨w1, h1, h2, -, h4, -⟩ :=
      resize_keeps_oldest_records (pushAll emptyWorld recordsABC) 8 (by decide)
    refine ⟨w1, h1, h2, ?_⟩
    rw [(h4 (by decide)).2.1]
    decide

/-- C18 fails: from the queue at start (cursor 0, capacity 1024), two pushes and
`resize(1)` leave the cursor at 2 over a capacity of 1, and the next `pop`
reads slot 1, outside the array. -/
theorem resize_leaves_cursor_above_capacity :
    freshWorld.g_subjectQueue.m_iQueueIndex = 0 ∧
    freshWorld.g_subjectQueue.m_iQueueSize = 1024 ∧
    ∃ w1, qtractorSubjectQueue.resize
        (qtractorSubjectQueue.push
          (qtractorSubjectQueue.push freshWorld 0 none (FloatVal.num 1)).2
          1 none (FloatVal.num 1)).2 1 = some w1 ∧
      w1.g_subjectQueue.m_iQueueIndex = 2 ∧
      w1.g_subjectQueue.m_iQueueSize = 1 ∧
      qtractorSubjectQueue.pop w1 true = none :=
  ⟨rfl, rfl, _, rfl, by decide, by decide,
    pop_unreadable _ true (by decide) (by decide)⟩

/-! ## safeValue, the spec's conform -/

theorem clampValue_of_mem (a b q : ℚ) (h1 : a ≤ q) (h2 : q ≤ b) :
    clampValue (FloatVal.num a) (FloatVal.num b) (FloatVal.num q) = FloatVal.num q := by
  have h3 : ¬ b < q := not_lt.mpr h2
  have h4 : ¬ q < a := not_lt.mpr h1
  simp [clampValue, FloatVal.fgt, FloatVal.flt, h3, h4]

/-- Clamping a number into `[a, b]` with `a <= b` yields a number of `[a, b]`:
the upper bound, the lower bound or the number itself. -/
theorem clampValue_num (a b q : ℚ) (hab : a ≤ b) :
    ∃ y, clampValue (FloatVal.num a) (FloatVal.num b) (FloatVal.num q) = FloatVal.num y ∧
      a ≤ y ∧ y ≤ b ∧ (y = a ∨ y = b ∨ y = q) := by
  by_cases h1 : b < q
  · exact ⟨b, by simp [clampValue, FloatVal.fgt, h1], hab, le_refl b, Or.inr (Or.inl rfl)⟩
  · by_cases h2 : q < a
    · exact ⟨a, by simp [clampValue, FloatVal.fgt, FloatVal.flt, h1, h2], le_refl a, hab,
        Or.inl rfl⟩
    · exact ⟨q, by simp [clampValue, FloatVal.fgt, FloatVal.flt, h1, h2], not_lt.mp h2,
        not_lt.mp h1, Or.inr (Or.inr rfl)⟩

theorem clampValue_nan (fMin fMax : FloatVal) :
    clampValue fMin fMax FloatVal.nan = FloatVal.nan := by
  simp [clampValue, FloatVal.fgt, FloatVal.flt]

theorem safeValue_eq_safeValueWith (s : qtractorSubject) (x : FloatVal) :
    s.safeValue x = safeValueWith toggleValue s x := rfl

/-- The toggle rule with threshold one half maps every value to 0 or 1 and
keeps 0 and 1. -/
theorem toggleValue_rule :
    (∀ y, toggleValue y = FloatVal.num 0 ∨ toggleValue y = FloatVal.num 1) ∧
    toggleValue (FloatVal.num 0) = FloatVal.num 0 ∧
    toggleValue (FloatVal.num 1) = FloatVal.num 1 := by
  refine ⟨?_, ?_, ?_⟩
  · intro y
    unfold toggleValue
    split
    · exact Or.inr rfl
    · exact Or.inl rfl
  · simp [toggleValue, FloatVal.fgt]
  · simp [toggleValue, FloatVal.fgt]
    norm_num

theorem feq_self (q : ℚ) : FloatVal.feq (FloatVal.num q) (FloatVal.num q) = true := by
  simp [FloatVal.feq]

theorem feq_nan_left (y : FloatVal) : FloatVal.feq FloatVal.nan y = false := by
  cases y <;> rfl

/-- Idempotence of `conform` for any toggle rule that maps every value to 0 or 1
and keeps 0 and 1, under the provisos on the bounds; and `conform` of a number
is a number. -/
theorem safeValueWith_idempotent (toggle : FloatVal → FloatVal) (s : qtractorSubject)
    (x : FloatVal) (a b : ℚ)
    (hrule : ∀ y, toggle y = FloatVal.num 0 ∨ toggle y = FloatVal.num 1)
    (hrule0 : toggle (FloatVal.num 0) = FloatVal.num 0)
    (hrule1 : toggle (FloatVal.num 1) = FloatVal.num 1)
    (hcurve : s.m_pCurve = none)
    (hmin : s.m_fMinValue = FloatVal.num a) (hmax : s.m_fMaxValue = FloatVal.num b)
    (hab : a ≤ b)
    (htog : s.m_bToggled = true → a ≤ 0 ∧ 1 ≤ b)
    (hint : s.m_bToggled = false → s.m_bInteger = true → ∃ i j : ℤ, a = i ∧ b = j) :
    safeValueWith toggle s (safeValueWith toggle s x) = safeValueWith toggle s x ∧
    (x ≠ FloatVal.nan → ∃ y, safeValueWith toggle s x = FloatVal.num y) := by
  cases ht : s.m_bToggled
  · cases hi : s.m_bInteger
    · -- neither toggled nor integer: the clamp alone
      have hsv : ∀ y, safeValueWith toggle s y
          = clampValue (FloatVal.num a) (FloatVal.num b) y := by
        intro y
        simp [safeValueWith, hcurve, ht, hi, hmin, hmax]
      rw [hsv, hsv]
      cases x with
      | nan =>
        rw [clampValue_nan, clampValue_nan]
        exact ⟨rfl, fun h => absurd rfl h⟩
      | num q =>
        obtain ⟨y, hy, h1, h2, -⟩ := clampValue_num a b q hab
        rw [hy, clampValue_of_mem a b y h1 h2]
        exact ⟨rfl, fun _ => ⟨y, rfl⟩⟩
    · -- integer: round, then clamp
      obtain ⟨i, j, hai, hbj⟩ := hint ht hi
      have hsv : ∀ y, safeValueWith toggle s y
          = clampValue (FloatVal.num a) (FloatVal.num b) (roundValue y) := by
        intro y
        simp [safeValueWith, hcurve, ht, hi, hmin, hmax]
      rw [hsv, hsv]
      cases x with
      | nan =>
        simp only [roundValue]
        rw [clampValue_nan]
        simp only [roundValue]
        rw [clampValue_nan]
        exact ⟨rfl, fun h => absurd rfl h⟩
      | num q =>
        simp only [roundValue]
        obtain ⟨y, hy, h1, h2, h3⟩ := clampValue_num a b ((round q : ℤ) : ℚ) hab
        rw [hy]
        have hyint : ((round y : ℤ) : ℚ) = y := by
          rcases h3 with h | h | h
          · rw [h, hai, round_intCast]
          · rw [h, hbj, round_intCast]
          · rw [h, round_intCast]
        simp only [roundValue]
        rw [hyint, clampValue_of_mem a b y h1 h2]
        exact ⟨rfl, fun _ => ⟨y, rfl⟩⟩
  · -- toggled: 0 or 1, both inside the bounds
    obtain ⟨ha0, hb1⟩ := htog ht
    have hsv : ∀ y, safeValueWith toggle s y
        = clampValue (FloatVal.num a) (FloatVal.num b) (toggle y) := by
      intro y
      simp [safeValueWith, hcurve, ht, hmin, hmax]
    have h0 : safeValueWith toggle s (FloatVal.num 0) = FloatVal.num 0 := by
      rw [hsv, hrule0, clampValue_of_mem a b 0 ha0 (by linarith)]
    have h1 : safeValueWith toggle s (FloatVal.num 1) = FloatVal.num 1 := by
      rw [hsv, hrule1, clampValue_of_mem a b 1 (by linarith) hb1]
    rcases hrule x with hx | hx
    · have hsx : safeValueWith toggle s x = FloatVal.num 0 := by
        rw [hsv, hx, clampValue_of_mem a b 0 ha0 (by linarith)]
      rw [hsx, h0]
      exact ⟨rfl, fun _ => ⟨0, rfl⟩⟩
    · have hsx : safeValueWith toggle s x = FloatVal.num 1 := by
        rw [hsv, hx, clampValue_of_mem a b 1 (by linarith) hb1]
      rw [hsx, h1]
      exact ⟨rfl, fun _ => ⟨1, rfl⟩⟩

theorem safeValueWith_toggled (toggle : FloatVal → FloatVal) (a b : ℚ) (y : FloatVal) :
    safeValueWith toggle (toggledWithBounds a b) y
      = clampValue (FloatVal.num a) (FloatVal.num b) (toggle y) := rfl

/-- Whatever the toggle rule, as long as it maps every value to 0 or 1 and
takes both values, there are bounds `a <= b` on which `conform` of a toggled
subject is not idempotent: [1/4, 1/2] when the rule sends 1/2 to 0, and
[1/2, 3/4] when it sends 1/2 to 1. -/
theorem toggle_rule_not_idempotent (toggle : FloatVal → FloatVal)
    (hrule : ∀ y, toggle y = FloatVal.num 0 ∨ toggle y = FloatVal.num 1)
    (h0 : ∃ x, toggle x = FloatVal.num 0) (h1 : ∃ x, toggle x = FloatVal.num 1) :
    ∃ (a b : ℚ) (x : FloatVal), a ≤ b ∧
      safeValueWith toggle (toggledWithBounds a b)
          (safeValueWith toggle (toggledWithBounds a b) x)
        ≠ safeValueWith toggle (toggledWithBounds a b) x := by
  obtain ⟨x0, hx0⟩ := h0
  obtain ⟨x1, hx1⟩ := h1
  have hc1 : clampValue (FloatVal.num (1 / 4)) (FloatVal.num (1 / 2)) (FloatVal.num 1)
      = FloatVal.num (1 / 2) := by
    norm_num [clampValue, FloatVal.fgt]
  have hc2 : clampValue (FloatVal.num (1 / 4)) (FloatVal.num (1 / 2)) (FloatVal.num 0)
      = FloatVal.num (1 / 4) := by
    norm_num [clampValue, FloatVal.fgt, FloatVal.flt]
  have hc3 : clampValue (FloatVal.num (1 / 2)) (FloatVal.num (3 / 4)) (FloatVal.num 0)
      = FloatVal.num (1 / 2) := by
    norm_num [clampValue, FloatVal.fgt, FloatVal.flt]
  have hc4 : clampValue (FloatVal.num (1 / 2)) (FloatVal.num (3 / 4)) (FloatVal.num 1)
      = FloatVal.num (3 / 4) := by
    norm_num [clampValue, FloatVal.fgt]
  rcases hrule (FloatVal.num (1 / 2)) with hhalf | hhalf
  · refine ⟨1 / 4, 1 / 2, x1, by norm_num, ?_⟩
    rw [safeValueWith_toggled, safeValueWith_toggled, hx1, hc1, hhalf, hc2]
    intro h
    simp only [FloatVal.num.injEq] at h
    norm_num at h
  · refine ⟨1 / 2, 3 / 4, x0, by norm_num, ?_⟩
    rw [safeValueWith_toggled, safeValueWith_toggled, hx0, hc3, hhalf, hc4]
    intro h
    simp only [FloatVal.num.injEq] at h
    norm_num at h

/-- C15 fails, in three ways.  (1) `integerSubject` has no curve, is not toggled,
is integer and has bounds `3/4 <= 2`: `safeValue` sends 0 to 3/4 (rounded to 0,
clamped up to the lower bound) and 3/4 to 1 (rounded to 1, inside the bounds),
so applying it twice to 0 gives 1, not 3/4.  (2) `toggledSubject` is toggled
with the same bounds: 0 goes to 3/4 and 3/4 to 1; and whatever rule maps to 0
and 1, taking both values, some bounds `a <= b` break idempotence on a toggled
subject.  (3) On `plainSubject`, neither toggled nor integer, `safeValue`
of NaN is NaN, and `NaN == NaN` is false. -/
theorem safeValue_not_idempotent :
    (integerSubject.m_pCurve.isNone = true ∧
      integerSubject.m_bToggled = false ∧
      integerSubject.m_bInteger = true ∧
      integerSubject.safeValue (FloatVal.num 0) = FloatVal.num (3 / 4) ∧
      integerSubject.safeValue (integerSubject.safeValue (FloatVal.num 0)) = FloatVal.num 1 ∧
      integerSubject.safeValue (integerSubject.safeValue (FloatVal.num 0))
        ≠ integerSubject.safeValue (FloatVal.num 0) ∧
      FloatVal.feq (integerSubject.safeValue (integerSubject.safeValue (FloatVal.num 0)))
        (integerSubject.safeValue (FloatVal.num 0)) = false) ∧
    (toggledSubject.m_pCurve.isNone = true ∧
      toggledSubject.m_bToggled = true ∧
      toggledSubject.safeValue (FloatVal.num 0) = FloatVal.num (3 / 4) ∧
      toggledSubject.safeValue (toggledSubject.safeValue (FloatVal.num 0)) = FloatVal.num 1 ∧
      FloatVal.feq (toggledSubject.safeValue (toggledSubject.safeValue (FloatVal.num 0)))
        (toggledSubject.safeValue (FloatVal.num 0)) = false) ∧
    (∀ toggle : FloatVal → FloatVal,
      (∀ y, toggle y = FloatVal.num 0 ∨ toggle y = FloatVal.num 1) →
      (∃ x, toggle x = FloatVal.num 0) → (∃ x, toggle x = FloatVal.num 1) →
      ∃ (a b : ℚ) (x : FloatVal), a ≤ b ∧
        safeValueWith toggle (toggledWithBounds a b)
            (safeValueWith toggle (toggledWithBounds a b) x)
          ≠ safeValueWith toggle (toggledWithBounds a b) x) ∧
    (plainSubject.m_bToggled = false ∧ plainSubject.m_bInteger = false ∧
      plainSubject.safeValue FloatVal.nan = FloatVal.nan ∧
      FloatVal.feq (plainSubject.safeValue (plainSubject.safeValue FloatVal.nan))
        (plainSubject.safeValue FloatVal.nan) = false) := by
  have hround : round ((3 : ℚ) / 4) = 1 := by
    rw [round_eq, Int.floor_eq_iff]
    norm_num
  have h1 : integerSubject.safeValue (FloatVal.num 0) = FloatVal.num (3 / 4) := by
    simp [qtractorSubject.safeValue, integerSubject, qtractorSubject.ctor, clampValue,
      roundValue, FloatVal.fgt, FloatVal.flt]
  have h2 : integerSubject.safeValue (FloatVal.num (3 / 4)) = FloatVal.num 1 := by
    simp only [qtractorSubject.safeValue, integerSubject, qtractorSubject.ctor, roundValue,
      hround, Bool.false_eq_true, if_false, if_true]
    norm_num [clampValue, FloatVal.fgt, FloatVal.flt]
  have hfeq : FloatVal.feq (FloatVal.num 1) (FloatVal.num (3 / 4)) = false := by
    norm_num [FloatVal.feq]
  have h3 : toggledSubject.safeValue (FloatVal.num 0) = FloatVal.num (3 / 4) := by
    rw [safeValue_eq_safeValueWith]
    show clampValue (FloatVal.num (3 / 4)) (FloatVal.num 2) (toggleValue (FloatVal.num 0)) = _
    rw [toggleValue_rule.2.1]
    norm_num [clampValue, FloatVal.fgt, FloatVal.flt]
  have h4 : toggledSubject.safeValue (FloatVal.num (3 / 4)) = FloatVal.num 1 := by
    rw [safeValue_eq_safeValueWith]
    show clampValue (FloatVal.num (3 / 4)) (FloatVal.num 2)
      (toggleValue (FloatVal.num (3 / 4))) = _
    have ht : toggleValue (FloatVal.num (3 / 4)) = FloatVal.num 1 := by
      norm_num [toggleValue, FloatVal.fgt]
    rw [ht]
    norm_num [clampValue, FloatVal.fgt, FloatVal.flt]
  have h5 : plainSubject.safeValue FloatVal.nan = FloatVal.nan := by
    simp [qtractorSubject.safeValue, plainSubject, qtractorSubject.ctor, clampValue_nan]
  refine ⟨⟨rfl, rfl, rfl, h1, ?_, ?_, ?_⟩, ⟨rfl, rfl, h3, ?_, ?_⟩,
    toggle_rule_not_idempotent, ⟨rfl, rfl, h5, ?_⟩⟩
  · rw [h1, h2]
  · rw [h1, h2]
    intro h
    simp only [FloatVal.num.injEq] at h
    norm_num at h
  · rw [h1, h2]
    exact hfeq
  · rw [h3, h4]
  · rw [h3, h4]
    exact hfeq
  · rw [h5, h5]
    rfl

/-- C15, amended: for a subject without a curve whose bounds are numbers with
`minValue <= maxValue`, provided that a toggled subject has both 0 and 1 inside
its bounds and that an integer subject that is not toggled has whole-number
bounds (a subject that is neither needs no proviso): `safeValue(safeValue(x))`
is the very value `safeValue(x)` for every raw `x`, and
`safeValue(safeValue(x)) == safeValue(x)` holds for every raw `x` other than
NaN.  The same holds with any toggle rule in place of the threshold one half,
as long as the rule maps every value to 0 or 1 and keeps 0 and 1. -/
theorem safeValue_idempotent (s : qtractorSubject) (x : FloatVal) (a b : ℚ)
    (hcurve : s.m_pCurve = none)
    (hmin : s.m_fMinValue = FloatVal.num a) (hmax : s.m_fMaxValue = FloatVal.num b)
    (hab : a ≤ b)
    (htog : s.m_bToggled = true → a ≤ 0 ∧ 1 ≤ b)
    (hint : s.m_bToggled = false → s.m_bInteger = true → ∃ i j : ℤ, a = i ∧ b = j) :
    s.safeValue (s.safeValue x) = s.safeValue x ∧
    (x ≠ FloatVal.nan →
      FloatVal.feq (s.safeValue (s.safeValue x)) (s.safeValue x) = true) ∧
    (∀ toggle : FloatVal → FloatVal,
      (∀ y, toggle y = FloatVal.num 0 ∨ toggle y = FloatVal.num 1) →
      toggle (FloatVal.num 0) = FloatVal.num 0 → toggle (FloatVal.num 1) = FloatVal.num 1 →
      safeValueWith toggle s (safeValueWith toggle s x) = safeValueWith toggle s x ∧
      (x ≠ FloatVal.nan →
        FloatVal.feq (safeValueWith toggle s (safeValueWith toggle s x))
          (safeValueWith toggle s x) = true)) := by
  have key : ∀ toggle : FloatVal → FloatVal,
      (∀ y, toggle y = FloatVal.num 0 ∨ toggle y = FloatVal.num 1) →
      toggle (FloatVal.num 0) = FloatVal.num 0 → toggle (FloatVal.num 1) = FloatVal.num 1 →
      safeValueWith toggle s (safeValueWith toggle s x) = safeValueWith toggle s x ∧
      (x ≠ FloatVal.nan →
        FloatVal.feq (safeValueWith toggle s (safeValueWith toggle s x))
          (safeValueWith toggle s x) = true) := by
    intro toggle hrule hrule0 hrule1
    obtain ⟨hidem, hnum⟩ := safeValueWith_idempotent toggle s x a b hrule hrule0 hrule1
      hcurve hmin hmax hab htog hint
    refine ⟨hidem, ?_⟩
    intro hx
    obtain ⟨y, hy⟩ := hnum hx
    rw [hidem, hy]
    exact feq_self y
  have hdef := key toggleValue toggleValue_rule.1 toggleValue_rule.2.1 toggleValue_rule.2.2
  exact ⟨hdef.1, hdef.2, key⟩

/-- C15 amended, on three examples, one for each kind of subject.  On
`plainSubject` (range [0, 1]) the raw 2 is clamped to 1.  On
`wholeIntegerSubject` (integer, whole-number bounds [0, 5]) the raw 7 is
clamped to 5.  On `switchSubject` (toggled, bounds [0, 1], which hold 0 and 1)
the raw 2 is mapped to 1.  In each case `safeValue` applied again returns the
same value, which compares equal with `==`. -/
theorem safeValue_idempotent_witness :
    (plainSubject.safeValue (FloatVal.num 2) = FloatVal.num 1 ∧
      plainSubject.safeValue (plainSubject.safeValue (FloatVal.num 2))
        = plainSubject.safeValue (FloatVal.num 2) ∧
      FloatVal.feq (plainSubject.safeValue (plainSubject.safeValue (FloatVal.num 2)))
        (plainSubject.safeValue (FloatVal.num 2)) = true) ∧
    (wholeIntegerSubject.m_bToggled = false ∧ wholeIntegerSubject.m_bInteger = true ∧
      wholeIntegerSubject.safeValue (FloatVal.num 7) = FloatVal.num 5 ∧
      wholeIntegerSubject.safeValue (wholeIntegerSubject.safeValue (FloatVal.num 7))
        = wholeIntegerSubject.safeValue (FloatVal.num 7) ∧
      FloatVal.feq
        (wholeIntegerSubject.safeValue (wholeIntegerSubject.safeValue (FloatVal.num 7)))
        (wholeIntegerSubject.safeValue (FloatVal.num 7)) = true) ∧
    (switchSubject.m_bToggled = true ∧
      switchSubject.safeValue (FloatVal.num 2) = FloatVal.num 1 ∧
      switchSubject.safeValue (switchSubject.safeValue (FloatVal.num 2))
        = switchSubject.safeValue (FloatVal.num 2) ∧
      FloatVal.feq (switchSubject.safeValue (switchSubject.safeValue (FloatVal.num 2)))
        (switchSubject.safeValue (FloatVal.num 2)) = true) := by
  have hp := safeValue_idempotent plainSubject (FloatVal.num 2) 0 1 rfl rfl rfl
    (by norm_num) (fun h => Bool.noConfusion h) (fun _ h => Bool.noConfusion h)
  have hi := safeValue_idempotent wholeIntegerSubject (FloatVal.num 7) 0 5 rfl rfl rfl
    (by norm_num) (fun h => Bool.noConfusion h)
    (fun _ _ => ⟨0, 5, by norm_num, by norm_num⟩)
  have hs := safeValue_idempotent switchSubject (FloatVal.num 2) 0 1 rfl rfl rfl
    (by norm_num) (fun _ => ⟨le_refl 0, le_refl 1⟩) (fun h => Bool.noConfusion h)
  have hne2 : FloatVal.num 2 ≠ FloatVal.nan := fun h => FloatVal.noConfusion h
  have hne7 : FloatVal.num 7 ≠ FloatVal.nan := fun h => FloatVal.noConfusion h
  refine ⟨⟨?_, hp.1, hp.2.1 hne2⟩, ⟨rfl, rfl, ?_, hi.1, hi.2.1 hne7⟩,
    ⟨rfl, ?_, hs.1, hs.2.1 hne2⟩⟩
  · norm_num [qtractorSubject.safeValue, plainSubject, qtractorSubject.ctor, clampValue,
      FloatVal.fgt]
  · have hround : round (7 : ℚ) = 7 := by simp
    simp only [qtractorSubject.safeValue, wholeIntegerSubject, qtractorSubject.ctor, roundValue,
      hround, Bool.false_eq_true, if_false, if_true]
    norm_num [clampValue, FloatVal.fgt]
  · rw [safeValue_eq_safeValueWith]
    show clampValue (FloatVal.num 0) (FloatVal.num 1) (toggleValue (FloatVal.num 2)) = _
    have ht : toggleValue (FloatVal.num 2) = FloatVal.num 1 := by
      norm_num [toggleValue, FloatVal.fgt]
    rw [ht]
    norm_num [clampValue, FloatVal.fgt, FloatVal.flt]

/-! ## The destructor -/

theorem dtorLoop_spec : ∀ (l : List ObserverId) (h : ObserverHeap) (o : ObserverId),
    (o ∈ l → qtractorSubject.dtorLoop l h o = none) ∧
    (o ∉ l → qtractorSubject.dtorLoop l h o = h o) := by
  intro l
  induction l with
  | nil =>
    intro h o
    exact ⟨fun hm => absurd hm (List.not_mem_nil o), fun _ => rfl⟩
  | cons a rest ih =>
    intro h o
    unfold qtractorSubject.dtorLoop
    by_cases hrest : o ∈ rest
    · exact ⟨fun _ => (ih _ o).1 hrest, fun hn => absurd (List.mem_cons_of_mem a hrest) hn⟩
    · refine ⟨?_, ?_⟩
      · intro hm
        have hoa : o = a := by
          rcases List.mem_cons.mp hm with h1 | h1
          · exact h1
          · exact absurd h1 hrest
        rw [(ih _ o).2 hrest, hoa]
        simp [qtractorObserver.setSubject]
      · intro hn
        have hoa : o ≠ a := fun e => hn (by rw [e]; exact List.mem_cons_self a rest)
        rw [(ih _ o).2 hrest]
        simp [qtractorObserver.setSubject, Function.update_noteq hoa]

/-- C16: destroying a subject leaves every observer of its list, however many
there are, with a null subject reference, and leaves the list empty; the
observers outside the list keep their reference. -/
theorem dtor_unbinds_every_observer (w : World) (h : ObserverHeap) (pSubject : SubjectId) :
    (∀ o ∈ (w.subjects pSubject).m_observers,
      (qtractorSubject.dtor w h pSubject).2 o = none) ∧
    ((qtractorSubject.dtor w h pSubject).1.subjects pSubject).m_observers = [] ∧
    (∀ o, o ∉ (w.subjects pSubject).m_observers →
      (qtractorSubject.dtor w h pSubject).2 o = h o) := by
  refine ⟨?_, ?_, ?_⟩
  · intro o ho
    exact (dtorLoop_spec _ h o).1 ho
  · simp [qtractorSubject.dtor]
  · intro o ho
    exact (dtorLoop_spec _ h o).2 ho

/-- C16, on an example: destroying subject 0 of `emptyWorld`, whose observers 7
and 8 refer to it, leaves both with a null reference and the list empty, while
observer 17 still refers to subject 1. -/
theorem dtor_unbinds_every_observer_witness :
    boundObservers 7 = some 0 ∧ boundObservers 8 = some 0 ∧
    (qtractorSubject.dtor emptyWorld boundObservers 0).2 7 = none ∧
    (qtractorSubject.dtor emptyWorld boundObservers 0).2 8 = none ∧
    ((qtractorSubject.dtor emptyWorld boundObservers 0).1.subjects 0).m_observers = [] ∧
    (qtractorSubject.dtor emptyWorld boundObservers 0).2 17 = some 1 :=
  ⟨by decide, by decide,
    (dtor_unbinds_every_observer emptyWorld boundObservers 0).1 7 (by decide),
    (dtor_unbinds_every_observer emptyWorld boundObservers 0).1 8 (by decide),
    (dtor_unbinds_every_observer emptyWorld boundObservers 0).2.1,
    by decide⟩

/-! ## The example scenario -/

/-- C17: for an unqueued subject with range [0, 1], not toggled, not integer and
without a curve (a subject as its constructor leaves it), a value that is not
1.5 and a queue with room, `setValue(1.5, null)` leaves `m_fValue == 1`, the
old value in `m_fPrevValue`, `m_bQueued == true`, and exactly one new record,
`(subject, null, 1.5)`, with the raw 1.5.  The following `flush(true)`, on a
readable queue, notifies that record first, which calls `update(true)` on
every observer of the subject in list order, and leaves `m_bQueued == false`. -/
theorem setValue_queues_raw_value (w : World) (pSubject : SubjectId)
    (hmin : (w.subjects pSubject).m_fMinValue = FloatVal.num 0)
    (hmax : (w.subjects pSubject).m_fMaxValue = FloatVal.num 1)
    (htog : (w.subjects pSubject).m_bToggled = false)
    (hint : (w.subjects pSubject).m_bInteger = false)
    (hcurve : (w.subjects pSubject).m_pCurve = none)
    (hq : (w.subjects pSubject).m_bQueued = false)
    (hne : FloatVal.feq (FloatVal.num (3 / 2)) (w.subjects pSubject).m_fValue = false)
    (hfree : w.g_subjectQueue.m_iQueueIndex < w.g_subjectQueue.m_iQueueSize)
    (hr : Readable w.g_subjectQueue) :
    ((qtractorSubject.setValue w pSubject (FloatVal.num (3 / 2)) none).subjects pSubject).m_fValue
      = FloatVal.num 1 ∧
    ((qtractorSubject.setValue w pSubject (FloatVal.num (3 / 2)) none).subjects
      pSubject).m_fPrevValue = (w.subjects pSubject).m_fValue ∧
    ((qtractorSubject.setValue w pSubject (FloatVal.num (3 / 2)) none).subjects pSubject).m_bQueued
      = true ∧
    (qtractorSubject.setValue w pSubject (FloatVal.num (3 / 2)) none).g_subjectQueue.m_iQueueIndex
      = w.g_subjectQueue.m_iQueueIndex + 1 ∧
    pending (qtractorSubject.setValue w pSubject (FloatVal.num (3 / 2)) none).g_subjectQueue
      = pending w.g_subjectQueue ++
        [{ subject := pSubject, sender := none, value := FloatVal.num (3 / 2) }] ∧
    ∃ w2 rest, qtractorSubject.flushQueue
        (qtractorSubject.setValue w pSubject (FloatVal.num (3 / 2)) none) true
          = some (true, w2) ∧
      w2.trace = w.trace ++
        (Event.notify pSubject none (FloatVal.num (3 / 2)) true ::
          (w.subjects pSubject).m_observers.map (fun o => Event.update o true)) ++ rest ∧
      (w2.subjects pSubject).m_bQueued = false := by
  have hsafe : (w.subjects pSubject).safeValue (FloatVal.num (3 / 2)) = FloatVal.num 1 := by
    simp only [qtractorSubject.safeValue, hcurve, htog, hint, hmin, hmax, Bool.false_eq_true,
      if_false]
    norm_num [clampValue, FloatVal.fgt]
  have hset := setValue_push w pSubject (FloatVal.num (3 / 2)) none hne hq hfree
  generalize qtractorSubject.setValue w pSubject (FloatVal.num (3 / 2)) none = w1 at hset ⊢
  have h1q : w1.g_subjectQueue = pushQueue w.g_subjectQueue
      { subject := pSubject, sender := none, value := FloatVal.num (3 / 2) } := by rw [hset]; rfl
  have h1t : w1.trace = w.trace := by rw [hset]
  have h1s : w1.subjects pSubject = { w.subjects pSubject with
      m_fValue := (w.subjects pSubject).safeValue (FloatVal.num (3 / 2)),
      m_fPrevValue := (w.subjects pSubject).m_fValue,
      m_bQueued := true } := by
    rw [hset]
    simp
  have h1p := pending_pushQueue w.g_subjectQueue
    { subject := pSubject, sender := none, value := FloatVal.num (3 / 2) } hfree
  have h1r : Readable w1.g_subjectQueue := by
    rw [h1q]
    exact readable_pushQueue _ _ hfree hr
  obtain ⟨w2, hloop, -, htrace, -, hflag⟩ :=
    flushLoop_drains true w1.g_subjectQueue.m_iQueueIndex w1 0 rfl h1r
  have hidx : w1.g_subjectQueue.m_iQueueIndex = w.g_subjectQueue.m_iQueueIndex + 1 := by
    rw [h1q]
    rfl
  refine ⟨by rw [h1s]; exact hsafe, by rw [h1s], by rw [h1s], hidx, by rw [h1q]; exact h1p,
    w2, ((pending w.g_subjectQueue).reverse.flatMap (callsOf w1 true)), ?_, ?_, ?_⟩
  · simp only [qtractorSubject.flushQueue, qtractorSubjectQueue.flush, hloop, hidx]
    simp
  · rw [htrace, h1t, h1q, h1p]
    have hobs : (w1.subjects pSubject).m_observers = (w.subjects pSubject).m_observers := by
      rw [h1s]
    simp [callsOf, updateCalls, hobs]
  · rw [hflag pSubject, h1q, h1p]
    simp

/-- C17, on an example: subject 0 of `emptyWorld`, with value 0 and observers 7
and 8; after `setValue(1.5, null)` and `flush(true)` the trace is the `notify`
with the raw 1.5 and the `update(true)` of observers 7 and 8. -/
theorem setValue_queues_raw_value_witness :
    ((qtractorSubject.setValue emptyWorld 0 (FloatVal.num (3 / 2)) none).subjects 0).m_fValue
      = FloatVal.num 1 ∧
    pending (qtractorSubject.setValue emptyWorld 0 (FloatVal.num (3 / 2)) none).g_subjectQueue
      = [{ subject := 0, sender := none, value := FloatVal.num (3 / 2) }] ∧
    ∃ w2 rest, qtractorSubject.flushQueue
        (qtractorSubject.setValue emptyWorld 0 (FloatVal.num (3 / 2)) none) true
          = some (true, w2) ∧
      w2.trace = [Event.notify 0 none (FloatVal.num (3 / 2)) true,
        Event.update 7 true, Event.update 8 true] ++ rest ∧
      (w2.subjects 0).m_bQueued = false := by
  have hne : FloatVal.feq (FloatVal.num (3 / 2)) (emptyWorld.subjects 0).m_fValue = false := by
    have h0 : (emptyWorld.subjects 0).m_fValue = FloatVal.num 0 := rfl
    rw [h0]
    norm_num [FloatVal.feq]
  obtain ⟨h1, -, -, -, h5, w2, rest, h6, h7, h8⟩ :=
    setValue_queues_raw_value emptyWorld 0 rfl rfl rfl rfl rfl rfl hne (by decide) (by decide)
  exact ⟨h1, h5, w2, rest, h6, h7, h8⟩

end Qtractor
